import Mathlib

/-!
Verification development for a search-syntax compiler: a lexer over an ordered,
prioritized token-pattern list, a recursive-descent grammar over the token
stream, and a semantic pass that folds the concrete parse structure into typed
filter clauses.  The definitions below are a shallow embedding of the source:
token patterns are transcribed from the regular expressions of the token
declarations, the grammar functions from the rule declarations, and the
semantic functions from the visitor methods.  The grammar engine itself is a
third-party library; its token-priority and longest-alternative rules are
transcribed from the token declarations (`longer_alt`), and its error-recovery
behaviour (not part of this repository's sources) is modelled from the spec:
a statement that fails to parse is discarded and scanning resumes at the next
position where a statement parses.
-/

/-! ### Filter clause data model (source: `FilterType`, `TermFilter`,
`FieldFilter`, `CompareFilter`, `RangeFilter`) -/

inductive FilterType where
  | Term
  | Field
  | GT
  | GTE
  | LT
  | LTE
  | Range
deriving DecidableEq, Repr

/-- Numeric value of the source `enum FilterType`, which starts at 1. -/
def FilterType.toNat : FilterType → Nat
  | .Term => 1
  | .Field => 2
  | .GT => 3
  | .GTE => 4
  | .LT => 5
  | .LTE => 6
  | .Range => 7

/-- A JavaScript value as it can appear in a clause payload: a string, a
number (`Number(image)` applied to a number-literal image; such images never
produce NaN, so an exact rational models it), a date (`new Date(image)`;
modelled by its constructor argument, and always truthy as every JS object is),
or `undefined`. -/
inductive JSVal where
  | str : String → JSVal
  | num : ℚ → JSVal
  | date : String → JSVal
  | undef
deriving DecidableEq, Repr

/-- JavaScript truthiness of a clause payload value. -/
def truthy : JSVal → Bool
  | .str s => !s.isEmpty
  | .num q => if q = 0 then false else true
  | .date _ => true
  | .undef => false

/-- An output filter clause, modelled as the JS object the visitor builds: the
`type` and `kind` tags plus the payload keys.  An `Option` field set to `none`
models an absent key; `some .undef` models a key present and holding
`undefined`.  The source keys `from` and `to` are named `fromV`/`toV` here
(`from` is a Lean keyword).  `exclude` is `Option Bool`: `none` models the key
being absent (it is deleted, never set to `false`, by the source). -/
structure Clause where
  type : FilterType
  kind : String
  field : Option String := none
  value : Option JSVal := none
  fromV : Option JSVal := none
  toV : Option JSVal := none
  exclude : Option Bool := none
deriving DecidableEq, Repr

/-! ### Lexer: character classes and token patterns

Token patterns are transcribed from the token declarations, in the declared
priority order: SP, Not, Minus, ID, GTE, GT, LTE, LT, EQ, DoubleDot, Star,
DateLiteral, NumberLiteral, QuotedTerm, Term.  `Not`, `ID`, `DateLiteral` and
`NumberLiteral` carry `longer_alt: Term`. -/

/-- The character class of the JS regex `\s`. -/
def jsWhitespace (c : Char) : Bool :=
  c = ' ' || c = '\t' || c = '\n' || c.val = 11 || c.val = 12 || c = '\r' ||
  c.val = 0xa0 || c.val = 0x1680 || (0x2000 ≤ c.val && c.val ≤ 0x200a) ||
  c.val = 0x2028 || c.val = 0x2029 || c.val = 0x202f || c.val = 0x205f ||
  c.val = 0x3000 || c.val = 0xfeff

/-- Length of the leading whitespace run (the SP pattern `\s+` is greedy). -/
def wsRun : List Char → Nat
  | [] => 0
  | c :: cs => if jsWhitespace c then wsRun cs + 1 else 0

/-- SP pattern `\s+` match length at the head of the input. -/
def spLen (l : List Char) : Option Nat :=
  if wsRun l = 0 then none else some (wsRun l)

/-- Match length of a literal token pattern (`NOT`, `-`, `:>=`, `:>`, `:<=`,
`:<`, `:`, `..`, `*`): the literal must be a prefix of the input. -/
def litLen (pat : List Char) (l : List Char) : Option Nat :=
  if pat.isPrefixOf l then some pat.length else none

def notLen : List Char → Option Nat := litLen ['N', 'O', 'T']
def minusLen : List Char → Option Nat := litLen ['-']
def gteLen : List Char → Option Nat := litLen [':', '>', '=']
def gtLen : List Char → Option Nat := litLen [':', '>']
def lteLen : List Char → Option Nat := litLen [':', '<', '=']
def ltLen : List Char → Option Nat := litLen [':', '<']
def eqLen : List Char → Option Nat := litLen [':']
def doubleDotLen : List Char → Option Nat := litLen ['.', '.']
def starLen : List Char → Option Nat := litLen ['*']

def idStart (c : Char) : Bool :=
  ('a' ≤ c && c ≤ 'z') || ('A' ≤ c && c ≤ 'Z') || c = '_'

def idChar (c : Char) : Bool :=
  idStart c || ('0' ≤ c && c ≤ '9')

def idRun : List Char → Nat
  | [] => 0
  | c :: cs => if idChar c then idRun cs + 1 else 0

/-- ID pattern `[a-zA-Z_]+[a-zA-Z0-9_]*` match length: the greedy match is the
longest prefix whose first character is a letter or underscore and whose
remaining characters are letters, digits or underscores. -/
def idLen (l : List Char) : Option Nat :=
  match l with
  | [] => none
  | c :: cs => if idStart c then some (idRun cs + 1) else none

/-- A character the Term pattern accepts unescaped: `[^\\\s:\.]`. -/
def termPlainChar (c : Char) : Bool :=
  !(c = '\\') && !jsWhitespace c && !(c = ':') && !(c = '.')

/-- A character the Term pattern accepts after a backslash: `[\s:\.]`. -/
def termEscChar (c : Char) : Bool :=
  jsWhitespace c || c = ':' || c = '.'

/-- Greedy match length of the Term pattern body `(?:[^\\\s:\.]|\\[\s:\.])+`
(the two alternatives start with distinct characters, so the greedy match is
deterministic). -/
def termRun : List Char → Nat
  | [] => 0
  | c :: cs =>
    if c = '\\' then
      match cs with
      | d :: cs2 => if termEscChar d then termRun cs2 + 2 else 0
      | [] => 0
    else if termPlainChar c then termRun cs + 1 else 0

/-- Term pattern match length (at least one repetition required). -/
def termLen (l : List Char) : Option Nat :=
  if termRun l = 0 then none else some (termRun l)

/-- Zone part of the DateLiteral pattern after the seconds: `Z|\+\d{2}:\d{2}`
(the source regex accepts only a `+` offset), preceded by `T\d{2}:\d{2}:\d{2}`.
Returns the length matched after the calendar date, or `none` when that whole
optional group does not match. -/
def timeLen : List Char → Option Nat
  | 'T' :: h1 :: h2 :: c1 :: i1 :: i2 :: c2 :: s1 :: s2 :: rest =>
    if h1.isDigit && h2.isDigit && c1 = ':' && i1.isDigit && i2.isDigit &&
       c2 = ':' && s1.isDigit && s2.isDigit then
      match rest with
      | 'Z' :: _ => some 10
      | '+' :: o1 :: o2 :: c3 :: o3 :: o4 :: _ =>
        if o1.isDigit && o2.isDigit && c3 = ':' && o3.isDigit && o4.isDigit then
          some 15
        else none
      | _ => none
    else none
  | _ => none

/-- DateLiteral pattern
`\d{4}-\d{2}-\d{2}(?:T\d{2}:\d{2}:\d{2}(?:Z|\+\d{2}:\d{2}))?` match length:
10 for the bare calendar date, 20 with time and `Z`, 25 with time and a
`+hh:mm` offset. -/
def dateLitLen : List Char → Option Nat
  | y1 :: y2 :: y3 :: y4 :: d1 :: m1 :: m2 :: d2 :: a1 :: a2 :: rest =>
    if y1.isDigit && y2.isDigit && y3.isDigit && y4.isDigit && d1 = '-' &&
       m1.isDigit && m2.isDigit && d2 = '-' && a1.isDigit && a2.isDigit then
      match timeLen rest with
      | some m => some (10 + m)
      | none => some 10
    else none
  | _ => none

/-- Length of the leading digit run. -/
def digitRun : List Char → Nat
  | [] => 0
  | c :: cs => if c.isDigit then digitRun cs + 1 else 0

/-- NumberLiteral pattern `\d+(?:\.\d+)?` match length. -/
def numLen (l : List Char) : Option Nat :=
  let d := digitRun l
  if d = 0 then none
  else
    match l.drop d with
    | c :: r2 =>
      if c = '.' then
        let f := digitRun r2
        if f = 0 then some d else some (d + 1 + f)
      else some d
    | [] => some d

/-- Interior of the QuotedTerm pattern after the opening quote:
`([^"\\]|\\")*"` — returns the matched length including the closing quote.
The two interior alternatives start with distinct characters and the closing
quote cannot begin either, so the match is deterministic. -/
def quotedRun : List Char → Option Nat
  | [] => none
  | c :: cs =>
    if c = '"' then some 1
    else if c = '\\' then
      match cs with
      | d :: cs2 =>
        if d = '"' then (quotedRun cs2).map (· + 2) else none
      | [] => none
    else (quotedRun cs).map (· + 1)

/-- QuotedTerm pattern `"([^"\\]|\\")*"` match length. -/
def quotedLen (l : List Char) : Option Nat :=
  match l with
  | c :: cs => if c = '"' then (quotedRun cs).map (· + 1) else none
  | [] => none

/-! ### Lexer: main loop -/

inductive TokKind where
  | SP
  | Not
  | Minus
  | ID
  | GTE
  | GT
  | LTE
  | LT
  | EQ
  | DoubleDot
  | Star
  | DateLiteral
  | NumberLiteral
  | QuotedTerm
  | Term
deriving DecidableEq, Repr

structure Token where
  kind : TokKind
  image : String
deriving DecidableEq, Repr

def mkTok (k : TokKind) (l : List Char) (n : Nat) : Token :=
  ⟨k, ⟨l.take n⟩⟩

/-- The `longer_alt: Term` adjudication: when a token pattern matches `n`
characters but the Term pattern matches strictly more, the emitted token is a
Term with the longer image. -/
def longerAlt (k : TokKind) (n : Nat) (l : List Char) : Token × Nat :=
  match termLen l with
  | some m => if n < m then (mkTok .Term l m, m) else (mkTok k l n, n)
  | none => (mkTok k l n, n)

/-- One lexing step at the head of the input: try the token patterns in their
declared priority order; the first that matches wins (after `longer_alt`
adjudication for Not, ID, DateLiteral and NumberLiteral).  Returns the emitted
token (`none` for skipped whitespace or for an unlexable character, which the
lexer records as an error and skips) and the number of characters consumed. -/
def nextTok (l : List Char) : Option Token × Nat :=
  match spLen l with
  | some n => (none, n)
  | none =>
  match notLen l with
  | some n => let p := longerAlt .Not n l; (some p.1, p.2)
  | none =>
  match minusLen l with
  | some n => (some (mkTok .Minus l n), n)
  | none =>
  match idLen l with
  | some n => let p := longerAlt .ID n l; (some p.1, p.2)
  | none =>
  match gteLen l with
  | some n => (some (mkTok .GTE l n), n)
  | none =>
  match gtLen l with
  | some n => (some (mkTok .GT l n), n)
  | none =>
  match lteLen l with
  | some n => (some (mkTok .LTE l n), n)
  | none =>
  match ltLen l with
  | some n => (some (mkTok .LT l n), n)
  | none =>
  match eqLen l with
  | some n => (some (mkTok .EQ l n), n)
  | none =>
  match doubleDotLen l with
  | some n => (some (mkTok .DoubleDot l n), n)
  | none =>
  match starLen l with
  | some n => (some (mkTok .Star l n), n)
  | none =>
  match dateLitLen l with
  | some n => let p := longerAlt .DateLiteral n l; (some p.1, p.2)
  | none =>
  match numLen l with
  | some n => let p := longerAlt .NumberLiteral n l; (some p.1, p.2)
  | none =>
  match quotedLen l with
  | some n => (some (mkTok .QuotedTerm l n), n)
  | none =>
  match termLen l with
  | some n => (some (mkTok .Term l n), n)
  | none => (none, 1)

/-- The lexer loop, with explicit fuel (each step consumes at least one
character, so `l.length` steps always suffice; see `tokenizeAux_fuel`). -/
def tokenizeAux : Nat → List Char → List Token
  | 0, _ => []
  | _ + 1, [] => []
  | fuel + 1, c :: cs =>
    let r := nextTok (c :: cs)
    (match r.1 with
     | some t => [t]
     | none => []) ++ tokenizeAux fuel ((c :: cs).drop r.2)

/-- Tokenization of a character list. -/
def tokList (l : List Char) : List Token := tokenizeAux l.length l

/-- `lexer.tokenize(filter).tokens`: whitespace is skipped, unlexable
characters are recorded as errors (discarded here, as the caller discards
them) and skipped. -/
def tokenize (s : String) : List Token := tokList s.data

/-! ### Grammar engine: concrete parse structure

One node type per grammar rule that the semantic pass inspects.  `fieldR` and
`fieldT` are the two alternatives of the `fieldStatement` rule (identifier,
`:`, then a range or a term). -/

inductive TermNode where
  | ident : String → TermNode
  | dateLit : String → TermNode
  | numLit : String → TermNode
  | rawTerm : String → TermNode
  | quoted : String → TermNode
deriving DecidableEq, Repr

inductive Comparable where
  | num : String → Comparable
  | date : String → Comparable
deriving DecidableEq, Repr

/-- A `range` node: `left c to` is `rangeLeft` (`to = none` when the right
endpoint is the `*` token), `right c` is `rangeRight` (`* .. c`). -/
inductive RangeNode where
  | left : Comparable → Option Comparable → RangeNode
  | right : Comparable → RangeNode
deriving DecidableEq, Repr

inductive CmpOp where
  | GT
  | GTE
  | LT
  | LTE
deriving DecidableEq, Repr

inductive Stmt where
  | neg : Stmt → Stmt
  | fieldR : String → RangeNode → Stmt
  | fieldT : String → TermNode → Stmt
  | cmp : String → CmpOp → Comparable → Stmt
  | term : TermNode → Stmt
deriving DecidableEq, Repr

/-- The `comparable` rule: a NumberLiteral or a DateLiteral token. -/
def parseComparable : List Token → Option (Comparable × List Token)
  | t :: rest =>
    if t.kind = .NumberLiteral then some (.num t.image, rest)
    else if t.kind = .DateLiteral then some (.date t.image, rest)
    else none
  | [] => none

/-- The `term` rule: an identifier, DateLiteral, NumberLiteral, Term or
QuotedTerm token. -/
def parseTermNode : List Token → Option (TermNode × List Token)
  | t :: rest =>
    match t.kind with
    | .ID => some (.ident t.image, rest)
    | .DateLiteral => some (.dateLit t.image, rest)
    | .NumberLiteral => some (.numLit t.image, rest)
    | .Term => some (.rawTerm t.image, rest)
    | .QuotedTerm => some (.quoted t.image, rest)
    | _ => none
  | [] => none

/-- The `range` rule: `rangeLeft` (comparable `..` (`*` | comparable)) is tried
before `rangeRight` (`*` `..` comparable); a leading `*` selects `rangeRight`. -/
def parseRange (toks : List Token) : Option (RangeNode × List Token) :=
  match toks with
  | t :: rest =>
    if t.kind = .Star then
      match rest with
      | d :: rest2 =>
        if d.kind = .DoubleDot then
          (parseComparable rest2).map fun p => (.right p.1, p.2)
        else none
      | [] => none
    else
      match parseComparable toks with
      | some (c, d :: rest2) =>
        if d.kind = .DoubleDot then
          match rest2 with
          | s :: rest3 =>
            if s.kind = .Star then some (.left c none, rest3)
            else (parseComparable rest2).map fun p => (.left c (some p.1), p.2)
          | [] => none
        else none
      | _ => none
  | [] => none

/-- Lookahead used to pick the `range` alternative of `fieldStatement` over the
`term` alternative: a `*`, or a comparable followed by `..`. -/
def startsRange : List Token → Bool
  | t :: rest =>
    t.kind = .Star ||
    ((t.kind = .NumberLiteral || t.kind = .DateLiteral) &&
      match rest with
      | d :: _ => d.kind = .DoubleDot
      | [] => false)
  | [] => false

/-- Tail of the `fieldStatement` rule after the identifier and `:` token. -/
def parseFieldTail (field : String) (toks : List Token) :
    Option (Stmt × List Token) :=
  if startsRange toks then
    (parseRange toks).map fun p => (.fieldR field p.1, p.2)
  else
    (parseTermNode toks).map fun p => (.fieldT field p.1, p.2)

/-- The comparison operator consumed by `compareStatement`. -/
def cmpOpOf : TokKind → Option CmpOp
  | .GT => some .GT
  | .GTE => some .GTE
  | .LT => some .LT
  | .LTE => some .LTE
  | _ => none

/-- The non-negative alternatives of the `statement` rule, selected by the
engine's lookahead: an identifier followed by `:` selects `fieldStatement`,
followed by a relational operator selects `compareStatement`; anything else
falls through to `term`. -/
def parseSimpleStatement (toks : List Token) : Option (Stmt × List Token) :=
  match toks with
  | t :: u :: rest2 =>
    if t.kind = .ID then
      if u.kind = .EQ then parseFieldTail t.image rest2
      else
        match cmpOpOf u.kind with
        | some op =>
          (parseComparable rest2).map fun p => (.cmp t.image op p.1, p.2)
        | none => (parseTermNode toks).map fun p => (.term p.1, p.2)
    else (parseTermNode toks).map fun p => (.term p.1, p.2)
  | _ => (parseTermNode toks).map fun p => (.term p.1, p.2)

/-- The `statement` rule: `NOT`/`-` selects `negativeStatement` (which wraps
the recursively parsed inner statement); otherwise the non-negative
alternatives are tried. -/
def parseStatement : List Token → Option (Stmt × List Token)
  | [] => none
  | t :: rest =>
    if t.kind = .Not || t.kind = .Minus then
      match parseStatement rest with
      | some (s, r) => some (.neg s, r)
      | none => none
    else parseSimpleStatement (t :: rest)

/-- Modelled from the spec: the engine's error recovery (the engine is a
third-party library, not part of this repository's sources).  Per the spec, on
failing all alternatives for `statement` the engine advances the token cursor
past the unrecognized tokens up to the next position at which a statement
succeeds, discarding the skipped tokens; a malformed statement therefore
yields no clause.  The `statements` rule is the source's
`MANY(SUBRULE(statement))`, with explicit fuel (each successful statement
consumes at least one token, so `toks.length` steps suffice). -/
def parseStatements : Nat → List Token → List Stmt
  | 0, _ => []
  | _ + 1, [] => []
  | fuel + 1, t :: rest =>
    match parseStatement (t :: rest) with
    | some (s, r) => s :: parseStatements fuel r
    | none => parseStatements fuel rest

def parseAll (toks : List Token) : List Stmt :=
  parseStatements toks.length toks

/-! ### Semantic resolver (source: the visitor methods) -/

/-- The JS line-terminator characters, which the regex `.` does not match. -/
def lineTerminator (c : Char) : Bool :=
  c = '\n' || c = '\r' || c.val = 0x2028 || c.val = 0x2029

/-- `escapeTerm`: `text.replace(/\\(.)/g, '$1')`.  A backslash is stripped
when followed by a character the regex `.` matches; `.` does not match line
terminators, so a backslash before a line terminator is kept. -/
def escapeTermAux : List Char → List Char
  | [] => []
  | [c] => [c]
  | c :: d :: cs =>
    if c = '\\' then
      if lineTerminator d then c :: escapeTermAux (d :: cs)
      else d :: escapeTermAux cs
    else c :: escapeTermAux (d :: cs)

def escapeTerm (s : String) : String := ⟨escapeTermAux s.data⟩

/-- Replace each `\"` by `"` in the interior of a quoted-term image (the only
escape sequence its pattern admits). -/
def unescapeQuotes : List Char → List Char
  | [] => []
  | [c] => [c]
  | c :: d :: cs =>
    if c = '\\' then
      if d = '"' then d :: unescapeQuotes cs else c :: unescapeQuotes (d :: cs)
    else c :: unescapeQuotes (d :: cs)

/-- Modelled from JS `JSON.parse` restricted to the images the QuotedTerm
pattern `"([^"\\]|\\")*"` produces: such an image is quote-delimited, its
interior holds no raw quote and a backslash only in the pair `\"`.  On these
inputs `JSON.parse` fails exactly when the interior holds a raw control
character (U+0000–U+001F, which the JSON string grammar forbids), and
otherwise yields the interior with each `\"` unescaped. -/
def jsonParseQuoted (s : String) : Except String String :=
  let inner := (s.data.drop 1).dropLast
  if inner.any fun c => c.val < 0x20 then
    .error ("Bad control character in string literal in JSON")
  else .ok (⟨unescapeQuotes inner⟩ : String)

def digitsVal (l : List Char) : Nat :=
  l.foldl (fun a c => a * 10 + (c.toNat - 48)) 0

/-- `Number(image)` on a NumberLiteral image `\d+(?:\.\d+)?`, as an exact
rational. -/
def jsNumber (s : String) : ℚ :=
  let d := digitRun s.data
  let intPart : ℚ := digitsVal (s.data.take d)
  match s.data.drop d with
  | c :: r2 =>
    if c = '.' then
      let f := digitRun r2
      intPart + (digitsVal (r2.take f) : ℚ) / (10 ^ f : ℚ)
    else intPart
  | [] => intPart

/-- Visitor `term` method: an identifier resolves to its image, a DateLiteral
or NumberLiteral appearing as a term resolves to its literal source text, a
raw Term resolves to its unescaped text, and a QuotedTerm goes through JSON
string parsing (which can fail). -/
def visitTermNode : TermNode → Except String String
  | .ident s => .ok s
  | .dateLit s => .ok s
  | .numLit s => .ok s
  | .rawTerm s => .ok (escapeTerm s)
  | .quoted s => jsonParseQuoted s

/-- Visitor `comparable` method: a NumberLiteral coerces with `Number`, a
DateLiteral with `new Date`. -/
def visitComparable : Comparable → JSVal
  | .num s => .num (jsNumber s)
  | .date s => .date s

/-- Visitor `rangeLeft`/`rangeRight` methods, as the `{from, to}` values the
`fieldStatement` method destructures (an absent key and an explicit
`undefined` both read as `undefined`). -/
def visitRange : RangeNode → JSVal × JSVal
  | .left c (some c2) => (visitComparable c, visitComparable c2)
  | .left c none => (visitComparable c, .undef)
  | .right c => (.undef, visitComparable c)

/-- The range part of the visitor `fieldStatement` method: `if (!from)` builds
an LTE compare on `to`; else `if (!to)` builds a GTE compare on `from`; else a
Range.  The guards are JS truthiness tests on the resolved values. -/
def fieldRangeClause (field : String) (fr tv : JSVal) : Clause :=
  if !truthy fr then
    { type := .LTE, kind := "LTE", field := some field, value := some tv }
  else if !truthy tv then
    { type := .GTE, kind := "GTE", field := some field, value := some fr }
  else
    { type := .Range, kind := "Range", field := some field,
      fromV := some fr, toV := some tv }

def cmpType : CmpOp → FilterType
  | .GT => .GT
  | .GTE => .GTE
  | .LT => .LT
  | .LTE => .LTE

def cmpKindStr : CmpOp → String
  | .GT => "GT"
  | .GTE => "GTE"
  | .LT => "LT"
  | .LTE => "LTE"

/-- Whether the `exclude` key reads as truthy (`if (node.exclude)`). -/
def excludeTruthy : Option Bool → Bool
  | some b => b
  | none => false

/-- Visitor `negativeStatement` method: toggle the clause's `exclude` key —
delete it when truthy, set it to `true` otherwise. -/
def toggleExclude (c : Clause) : Clause :=
  if excludeTruthy c.exclude then { c with exclude := none }
  else { c with exclude := some true }

/-- Visitor `statement` dispatch and the per-rule clause constructions:
`fieldStatement` (range and term alternatives), `compareStatement` (its
`kind`/`type` are set from whichever operator token is present; the grammar
always supplies exactly one, so the initial GT default is always overwritten
or confirmed), and the bare `term` statement. -/
def visitStatement : Stmt → Except String Clause
  | .neg s => (visitStatement s).map toggleExclude
  | .fieldR f r => .ok (fieldRangeClause f (visitRange r).1 (visitRange r).2)
  | .fieldT f t =>
    (visitTermNode t).map fun v =>
      { type := .Field, kind := "Field", field := some f, value := some (.str v) }
  | .cmp f op c =>
    .ok { type := cmpType op, kind := cmpKindStr op, field := some f,
          value := some (visitComparable c) }
  | .term t =>
    (visitTermNode t).map fun v =>
      { type := .Term, kind := "Term", value := some (.str v) }

/-- Visitor `statements` method: map `visit` over the statement children (an
empty child list yields `[]`); a thrown resolution error propagates out,
modelled by `Except`. -/
def visitStatements : List Stmt → Except String (List Clause)
  | [] => .ok []
  | s :: rest =>
    match visitStatement s with
    | .ok c =>
      match visitStatements rest with
      | .ok cs => .ok (c :: cs)
      | .error e => .error e
    | .error e => .error e

/-- `parse(filter)`: tokenize, run the `statements` rule, then fold the parse
structure into clauses. -/
def parse (filter : String) : Except String (List Clause) :=
  visitStatements (parseAll (tokenize filter))


deriving instance DecidableEq for Except

/-! ### Definitions used to state the claims -/

/-- `n` negation keywords in front of a statement: `notWrap n x` is
`"NOT " ... "NOT " ++ x` with `n` wrappers. -/
def notWrap : Nat → String → String
  | 0, x => x
  | n + 1, x => "NOT " ++ notWrap n x

/-- `n` `negativeStatement` wrappers around a statement node. -/
def negIter : Nat → Stmt → Stmt
  | 0, s => s
  | n + 1, s => .neg (negIter n s)

/-- The backslash character (spelled via a name for readability in the
statements below). -/
def chr92 : Char := '\\'

/-- A character allowed in a "bare word": not whitespace and none of the
special characters backslash, colon, dot, quote, star, minus. -/
def bareChar (c : Char) : Bool :=
  !jsWhitespace c && !(c = chr92) && !(c = ':') && !(c = '.') &&
  !(c = '"') && !(c = '*') && !(c = '-')

/-- The date-literal surface shape with only the offsets the source regex
accepts: `YYYY-MM-DD`, optionally followed by `THH:MM:SS` and either `Z` or a
`+HH:MM` offset. -/
def dateShape (s : String) : Bool :=
  match s.data with
  | [y1, y2, y3, y4, d1, m1, m2, d2, a1, a2] =>
    [y1, y2, y3, y4, m1, m2, a1, a2].all Char.isDigit &&
    d1 = '-' && d2 = '-'
  | [y1, y2, y3, y4, d1, m1, m2, d2, a1, a2, t1,
     h1, h2, c1, i1, i2, c2, s1, s2, z1] =>
    [y1, y2, y3, y4, m1, m2, a1, a2, h1, h2, i1, i2, s1, s2].all Char.isDigit &&
    d1 = '-' && d2 = '-' && t1 = 'T' && c1 = ':' && c2 = ':' && z1 = 'Z'
  | [y1, y2, y3, y4, d1, m1, m2, d2, a1, a2, t1,
     h1, h2, c1, i1, i2, c2, s1, s2, p1, o1, o2, c3, o3, o4] =>
    [y1, y2, y3, y4, m1, m2, a1, a2, h1, h2, i1, i2, s1, s2,
     o1, o2, o3, o4].all Char.isDigit &&
    d1 = '-' && d2 = '-' && t1 = 'T' && c1 = ':' && c2 = ':' &&
    p1 = '+' && c3 = ':'
  | _ => false

/-- The compare clause tags. -/
def isCompareType : FilterType → Bool
  | .GT => true
  | .GTE => true
  | .LT => true
  | .LTE => true
  | _ => false

/-- The `kind` string that belongs to each `type` tag, per the output clause
interfaces. -/
def kindOf : FilterType → String
  | .Term => "Term"
  | .Field => "Field"
  | .GT => "GT"
  | .GTE => "GTE"
  | .LT => "LT"
  | .LTE => "LTE"
  | .Range => "Range"

/-- Tag/payload consistency of an output clause: the `kind` string agrees with
the `type` tag, the kind is never `EQ`, a Range clause carries both `from` and
`to`, and a compare clause carries exactly one value (its `value` key, with no
`from`/`to`). -/
def clauseConsistent (c : Clause) : Prop :=
  c.kind = kindOf c.type ∧ c.kind ≠ "EQ" ∧
  (c.type = .Range → c.fromV.isSome = true ∧ c.toV.isSome = true ∧
    c.value = none) ∧
  (isCompareType c.type = true → c.value.isSome = true ∧ c.fromV = none ∧
    c.toV = none)

instance (c : Clause) : Decidable (clauseConsistent c) := by
  unfold clauseConsistent
  infer_instance

/-- Whether an `Except` result is a success. -/
def exceptIsOk : Except String String → Bool
  | .ok _ => true
  | .error _ => false

/-- A token whose resolution cannot throw: any token other than a QuotedTerm,
or a QuotedTerm whose image passes JSON string parsing. -/
def tokJsonOk (t : Token) : Bool :=
  if t.kind = .QuotedTerm then exceptIsOk (jsonParseQuoted t.image) else true

/-- The analogous condition on a term leaf of the parse structure. -/
def termNodeJsonOk : TermNode → Bool
  | .quoted s => exceptIsOk (jsonParseQuoted s)
  | _ => true

/-- All quoted leaves of a statement node pass JSON string parsing. -/
def stmtJsonOk : Stmt → Bool
  | .neg s => stmtJsonOk s
  | .fieldR _ _ => true
  | .fieldT _ t => termNodeJsonOk t
  | .cmp _ _ _ => true
  | .term t => termNodeJsonOk t


/-! ### Lexer lemmas -/

theorem chr92_eq : chr92 = '\\' := rfl

theorem spLen_pos {l : List Char} {n : Nat} (h : spLen l = some n) : 1 ≤ n := by
  unfold spLen at h
  split at h
  · simp at h
  · cases h; omega

theorem litLen_eq {pat l : List Char} {n : Nat} (h : litLen pat l = some n) :
    n = pat.length ∧ pat.isPrefixOf l = true := by
  unfold litLen at h
  split at h
  · cases h; exact ⟨rfl, by assumption⟩
  · simp at h

theorem idLen_pos {l : List Char} {n : Nat} (h : idLen l = some n) : 1 ≤ n := by
  cases l with
  | nil => simp [idLen] at h
  | cons c cs =>
    simp only [idLen] at h
    split at h
    · cases h; omega
    · simp at h

theorem timeLen_vals {l : List Char} {n : Nat} (h : timeLen l = some n) :
    n = 10 ∨ n = 15 := by
  unfold timeLen at h
  repeat' split at h
  all_goals first | (cases h; omega) | simp at h

theorem dateLitLen_vals {l : List Char} {n : Nat} (h : dateLitLen l = some n) :
    n = 10 ∨ n = 20 ∨ n = 25 := by
  unfold dateLitLen at h
  split at h
  case h_2 => simp at h
  case h_1 =>
    split at h
    case isFalse => simp at h
    case isTrue =>
      split at h
      case h_2 => cases h; exact Or.inl rfl
      case h_1 =>
        cases h
        next m hm =>
          rcases timeLen_vals hm with rfl | rfl
          · exact Or.inr (Or.inl rfl)
          · exact Or.inr (Or.inr rfl)

theorem dateLitLen_pos {l : List Char} {n : Nat} (h : dateLitLen l = some n) :
    1 ≤ n := by
  rcases dateLitLen_vals h with rfl | rfl | rfl <;> omega

theorem numLen_pos {l : List Char} {n : Nat} (h : numLen l = some n) : 1 ≤ n := by
  simp only [numLen] at h
  repeat' split at h
  all_goals first | (cases h; omega) | simp at h

theorem quotedLen_pos {l : List Char} {n : Nat} (h : quotedLen l = some n) :
    1 ≤ n := by
  cases l with
  | nil => simp [quotedLen] at h
  | cons c cs =>
    simp only [quotedLen] at h
    split at h
    · rcases Option.map_eq_some'.mp h with ⟨m, _, hm⟩
      omega
    · simp at h

theorem termLen_pos {l : List Char} {n : Nat} (h : termLen l = some n) : 1 ≤ n := by
  unfold termLen at h
  split at h
  · simp at h
  · cases h; omega

theorem longerAlt_pos {k : TokKind} {n : Nat} {l : List Char} (h : 1 ≤ n) :
    1 ≤ (longerAlt k n l).2 := by
  unfold longerAlt
  cases htl : termLen l with
  | none => exact h
  | some m =>
    by_cases hnm : n < m
    · simp [hnm]; omega
    · simp [hnm]; exact h

theorem nextTok_pos (l : List Char) : 1 ≤ (nextTok l).2 := by
  unfold nextTok
  repeat' split
  all_goals
    first
    | omega
    | (apply longerAlt_pos
       first
       | exact spLen_pos (by assumption)
       | exact idLen_pos (by assumption)
       | exact dateLitLen_pos (by assumption)
       | exact numLen_pos (by assumption)
       | (rcases litLen_eq (by assumption) with ⟨rfl, _⟩; decide))
    | exact spLen_pos (by assumption)
    | exact idLen_pos (by assumption)
    | exact quotedLen_pos (by assumption)
    | exact termLen_pos (by assumption)
    | exact numLen_pos (by assumption)
    | (rcases litLen_eq (by assumption) with ⟨h9, _⟩; subst h9; simp)
    | simp

/-- The lexer's fuel is irrelevant as soon as it covers the input length:
every step consumes at least one character. -/
theorem tokenizeAux_fuel (f : Nat) :
    ∀ l : List Char, l.length ≤ f → tokenizeAux f l = tokList l := by
  induction f using Nat.strong_induction_on with
  | _ f ih =>
    intro l hl
    cases l with
    | nil =>
      cases f with
      | zero => rfl
      | succ g => rfl
    | cons c cs =>
      cases f with
      | zero => simp at hl
      | succ g =>
        show _ = tokenizeAux (cs.length + 1) (c :: cs)
        rw [tokenizeAux, tokenizeAux]
        have hpos := nextTok_pos (c :: cs)
        have hdl : ((c :: cs).drop (nextTok (c :: cs)).2).length ≤ cs.length := by
          simp only [List.length_drop, List.length_cons]
          omega
        have hg : cs.length ≤ g := by
          simp only [List.length_cons] at hl
          omega
        congr 1
        rw [ih g (by omega) _ (le_trans hdl hg)]
        rw [ih cs.length (by omega) _ hdl]

/-- One step of the lexer on a nonempty input. -/
theorem tokList_cons (c : Char) (cs : List Char) :
    tokList (c :: cs) =
      (match (nextTok (c :: cs)).1 with
       | some t => [t]
       | none => []) ++ tokList ((c :: cs).drop (nextTok (c :: cs)).2) := by
  show tokenizeAux (cs.length + 1) (c :: cs) = _
  rw [tokenizeAux]
  congr 1
  apply tokenizeAux_fuel
  have hpos := nextTok_pos (c :: cs)
  simp only [List.length_drop, List.length_cons]
  omega

theorem nextTok_ws {c : Char} (cs : List Char) (h : jsWhitespace c = true) :
    nextTok (c :: cs) = (none, wsRun cs + 1) := by
  have hsp : spLen (c :: cs) = some (wsRun cs + 1) := by
    simp [spLen, wsRun, h]
  unfold nextTok
  rw [hsp]

theorem tokList_ws_step {c : Char} (cs : List Char) (h : jsWhitespace c = true) :
    tokList (c :: cs) = tokList (cs.drop (wsRun cs)) := by
  rw [tokList_cons, nextTok_ws cs h]
  simp [List.drop_succ_cons]

theorem tokList_dropWs : ∀ cs : List Char, tokList (cs.drop (wsRun cs)) = tokList cs := by
  intro cs
  induction cs with
  | nil => rfl
  | cons c cs ih =>
    by_cases h : jsWhitespace c = true
    · have hws : wsRun (c :: cs) = wsRun cs + 1 := by simp [wsRun, h]
      rw [hws, List.drop_succ_cons, ih, tokList_ws_step cs h, ih]
    · have hc : jsWhitespace c = false := by
        cases hcc : jsWhitespace c
        · rfl
        · exact absurd hcc h
      have hws : wsRun (c :: cs) = 0 := by simp [wsRun, hc]
      rw [hws]
      rfl

/-- Skipped whitespace never affects the token stream. -/
theorem tokList_ws_cons {c : Char} (cs : List Char) (h : jsWhitespace c = true) :
    tokList (c :: cs) = tokList cs :=
  (tokList_ws_step cs h).trans (tokList_dropWs cs)

theorem tokList_all_ws : ∀ l : List Char, (∀ c ∈ l, jsWhitespace c = true) →
    tokList l = [] := by
  intro l hl
  induction l with
  | nil => rfl
  | cons c cs ih =>
    rw [tokList_ws_cons cs (hl c (by simp))]
    exact ih fun d hd => hl d (by simp [hd])

theorem termRun_plain {c : Char} (cs : List Char) (h : termPlainChar c = true) :
    termRun (c :: cs) = termRun cs + 1 := by
  have hc : ¬c = chr92 := by
    intro hc
    rw [hc] at h
    simp [termPlainChar, chr92] at h
  conv_lhs => rw [termRun.eq_def]
  simp only []
  rw [if_neg (by rw [chr92_eq] at hc; exact hc), if_pos h]

theorem termRun_stop {c : Char} (cs : List Char) (h1 : c ≠ chr92)
    (h2 : termPlainChar c = false) : termRun (c :: cs) = 0 := by
  conv_lhs => rw [termRun.eq_def]
  simp only []
  rw [if_neg (by rw [chr92_eq] at h1; exact h1), if_neg (by simp [h2])]

theorem termRun_esc {d : Char} (cs : List Char) (hd : termEscChar d = true) :
    termRun (chr92 :: d :: cs) = termRun cs + 2 := by
  conv_lhs => rw [termRun.eq_def]
  simp only []
  rw [if_pos (by rw [chr92_eq]), if_pos hd]

theorem nextTok_NOT_ws (cs : List Char) :
    nextTok ('N' :: 'O' :: 'T' :: ' ' :: cs) = (some ⟨.Not, "NOT"⟩, 3) := by
  have hsp : spLen ('N' :: 'O' :: 'T' :: ' ' :: cs) = none := by
    simp [spLen, wsRun, jsWhitespace]
  have hnot : notLen ('N' :: 'O' :: 'T' :: ' ' :: cs) = some 3 := by
    simp [notLen, litLen, List.isPrefixOf]
  have hterm : termLen ('N' :: 'O' :: 'T' :: ' ' :: cs) = some 3 := by
    rw [termLen, termRun_plain _ (by decide), termRun_plain _ (by decide),
        termRun_plain _ (by decide), termRun_stop cs (by decide) (by decide)]
    norm_num
  unfold nextTok
  rw [hsp, hnot]
  simp only [longerAlt, hterm]
  norm_num
  rfl

theorem tokList_NOT_ws (cs : List Char) :
    tokList ('N' :: 'O' :: 'T' :: ' ' :: cs) = ⟨.Not, "NOT"⟩ :: tokList cs := by
  rw [tokList_cons, nextTok_NOT_ws cs]
  simp only [List.drop_succ_cons, List.drop_zero]
  rw [tokList_ws_cons cs (by decide)]
  rfl

theorem nextTok_minus (cs : List Char) :
    nextTok ('-' :: cs) = (some ⟨.Minus, "-"⟩, 1) := by
  have hsp : spLen ('-' :: cs) = none := by
    simp [spLen, wsRun, jsWhitespace]
  have hnot : notLen ('-' :: cs) = none := by
    simp [notLen, litLen, List.isPrefixOf]
  have hminus : minusLen ('-' :: cs) = some 1 := by
    simp [minusLen, litLen, List.isPrefixOf]
  unfold nextTok
  rw [hsp, hnot, hminus]
  rfl

theorem tokList_minus (cs : List Char) :
    tokList ('-' :: cs) = ⟨.Minus, "-"⟩ :: tokList cs := by
  rw [tokList_cons, nextTok_minus cs]
  simp only [List.drop_succ_cons, List.drop_zero]
  rfl

/-! ### String and parser helper lemmas -/

theorem data_append (a b : String) : (a ++ b).data = a.data ++ b.data := rfl

theorem tokenize_NOT_append (x : String) :
    tokenize ("NOT " ++ x) = ⟨.Not, "NOT"⟩ :: tokenize x := by
  show tokList (("NOT " ++ x).data) = _
  rw [data_append]
  show tokList ('N' :: 'O' :: 'T' :: ' ' :: x.data) = _
  rw [tokList_NOT_ws]
  rfl

theorem tokenize_minus_append (x : String) :
    tokenize ("-" ++ x) = ⟨.Minus, "-"⟩ :: tokenize x := by
  show tokList (("-" ++ x).data) = _
  rw [data_append]
  show tokList ('-' :: x.data) = _
  rw [tokList_minus]
  rfl

theorem parseStatement_notTok (img : String) (toks : List Token) :
    parseStatement (⟨.Not, img⟩ :: toks) =
      (parseStatement toks).map fun p => (.neg p.1, p.2) := by
  rw [parseStatement.eq_def]
  simp only []
  rw [if_pos (by simp)]
  cases parseStatement toks with
  | none => rfl
  | some p => rfl

theorem parseStatement_minusTok (img : String) (toks : List Token) :
    parseStatement (⟨.Minus, img⟩ :: toks) =
      (parseStatement toks).map fun p => (.neg p.1, p.2) := by
  rw [parseStatement.eq_def]
  simp only []
  rw [if_pos (by simp)]
  cases parseStatement toks with
  | none => rfl
  | some p => rfl

theorem parseStatements_nil (f : Nat) : parseStatements f [] = [] := by
  cases f <;> rfl

theorem parseAll_single {toks : List Token} {st : Stmt}
    (h : parseStatement toks = some (st, [])) : parseAll toks = [st] := by
  cases toks with
  | nil => simp [parseStatement] at h
  | cons t rest =>
    show parseStatements (rest.length + 1) (t :: rest) = [st]
    rw [parseStatements, h]
    simp [parseStatements_nil]

theorem parse_single {x : String} {st : Stmt} {c : Clause}
    (h1 : parseStatement (tokenize x) = some (st, []))
    (h2 : visitStatement st = .ok c) : parse x = .ok [c] := by
  unfold parse
  rw [parseAll_single h1, visitStatements, h2]
  rfl

/-! ### Negation toggle lemmas -/

theorem visitStatement_neg (s : Stmt) :
    visitStatement (.neg s) = (visitStatement s).map toggleExclude := rfl

theorem toggle_of_none {c : Clause} (h : c.exclude = none) :
    toggleExclude c = { c with exclude := some true } := by
  unfold toggleExclude
  rw [h]
  simp [excludeTruthy]

theorem toggle_of_some_true {c : Clause} (h : c.exclude = some true) :
    toggleExclude c = { c with exclude := none } := by
  unfold toggleExclude
  rw [h]
  simp [excludeTruthy]

theorem tokenize_NOTNOT_append (x : String) :
    tokenize ("NOT NOT " ++ x) =
      ⟨.Not, "NOT"⟩ :: ⟨.Not, "NOT"⟩ :: tokenize x := by
  show tokList (("NOT NOT " ++ x).data) = _
  rw [data_append]
  show tokList ('N' :: 'O' :: 'T' :: ' ' :: 'N' :: 'O' :: 'T' :: ' ' :: x.data) = _
  rw [tokList_NOT_ws, tokList_NOT_ws]
  rfl

theorem parseStatement_notWrap {x : String} {st : Stmt}
    (h1 : parseStatement (tokenize x) = some (st, [])) :
    ∀ n, parseStatement (tokenize (notWrap n x)) = some (negIter n st, []) := by
  intro n
  induction n with
  | zero => exact h1
  | succ n ih =>
    show parseStatement (tokenize ("NOT " ++ notWrap n x)) = _
    rw [tokenize_NOT_append, parseStatement_notTok, ih]
    rfl

theorem visit_negIter {st : Stmt} {c : Clause}
    (h2 : visitStatement st = .ok c) (h3 : c.exclude = none) :
    ∀ n, visitStatement (negIter n st) =
      .ok (if n % 2 = 0 then c else { c with exclude := some true }) := by
  intro n
  induction n with
  | zero => simpa using h2
  | succ n ih =>
    show visitStatement (.neg (negIter n st)) = _
    rw [visitStatement_neg, ih]
    by_cases hn : n % 2 = 0
    · rw [if_pos hn, if_neg (by omega)]
      show Except.ok (toggleExclude c) = _
      rw [toggle_of_none h3]
    · rw [if_neg hn, if_pos (by omega)]
      show Except.ok (toggleExclude { c with exclude := some true }) = _
      rw [toggle_of_some_true (by simp)]
      cases c
      simp at h3
      subst h3
      rfl

/-- Claim C5: negation is an exclude-flag toggle applied once per enclosing
`NOT`/`-` wrapper: for a statement `x` whose clause is unmarked,
`NOT NOT x` yields the same clause as `x` (no exclude flag), `NOT x` and `-x`
both yield the clause with `exclude = true`, and `n` wrappers mark the clause
exactly when `n` is odd. -/
theorem C5_negation_toggle (x : String) (st : Stmt) (c : Clause)
    (h1 : parseStatement (tokenize x) = some (st, []))
    (h2 : visitStatement st = .ok c)
    (h3 : c.exclude = none) :
    parse x = .ok [c] ∧
    parse ("NOT NOT " ++ x) = .ok [c] ∧
    parse ("NOT " ++ x) = .ok [{ c with exclude := some true }] ∧
    parse ("-" ++ x) = .ok [{ c with exclude := some true }] ∧
    ∀ n : Nat, parse (notWrap n x) =
      .ok [if n % 2 = 0 then c else { c with exclude := some true }] := by
  have key : ∀ n, parse (notWrap n x) =
      .ok [if n % 2 = 0 then c else { c with exclude := some true }] :=
    fun n => parse_single (parseStatement_notWrap h1 n) (visit_negIter h2 h3 n)
  refine ⟨parse_single h1 h2, ?_, ?_, ?_, key⟩
  · have hA : parseStatement (tokenize ("NOT NOT " ++ x)) =
        some (.neg (.neg st), []) := by
      rw [tokenize_NOTNOT_append, parseStatement_notTok, parseStatement_notTok,
          h1]
      rfl
    have hB : visitStatement (.neg (.neg st)) = .ok c := by
      rw [visitStatement_neg, visitStatement_neg, h2]
      show Except.ok (toggleExclude (toggleExclude c)) = _
      rw [toggle_of_none h3, toggle_of_some_true (by simp)]
      cases c
      simp at h3
      subst h3
      rfl
    exact parse_single hA hB
  · have hA : parseStatement (tokenize ("NOT " ++ x)) = some (.neg st, []) := by
      rw [tokenize_NOT_append, parseStatement_notTok, h1]
      rfl
    have hB : visitStatement (.neg st) = .ok { c with exclude := some true } := by
      rw [visitStatement_neg, h2]
      show Except.ok (toggleExclude c) = _
      rw [toggle_of_none h3]
    exact parse_single hA hB
  · have hA : parseStatement (tokenize ("-" ++ x)) = some (.neg st, []) := by
      rw [tokenize_minus_append, parseStatement_minusTok, h1]
      rfl
    have hB : visitStatement (.neg st) = .ok { c with exclude := some true } := by
      rw [visitStatement_neg, h2]
      show Except.ok (toggleExclude c) = _
      rw [toggle_of_none h3]
    exact parse_single hA hB

theorem C5_negation_toggle_witness :
    parseStatement (tokenize ("abc")) = some (.term (.ident ("abc")), []) ∧
    parse ("NOT abc") =
      .ok [{ type := .Term, kind := "Term", value := some (.str ("abc")),
             exclude := some true }] := by
  refine ⟨by decide, ?_⟩
  have h := C5_negation_toggle ("abc") (.term (.ident ("abc")))
    { type := .Term, kind := "Term", value := some (.str ("abc")) }
    (by decide) (by decide) rfl
  exact h.2.2.1

/-- Claim C9: an input consisting only of whitespace characters (including the
empty string) parses to the empty clause sequence. -/
theorem C9_whitespace_empty (s : String)
    (h : ∀ c ∈ s.data, jsWhitespace c = true) : parse s = .ok [] := by
  unfold parse
  show visitStatements (parseAll (tokList s.data)) = _
  rw [tokList_all_ws s.data h]
  rfl

theorem C9_whitespace_empty_witness :
    (∀ c ∈ (" \t " : String).data, jsWhitespace c = true) ∧
    parse (" \t ") = .ok [] :=
  ⟨by decide, C9_whitespace_empty (" \t ") (by decide)⟩

/-- Claim C1 counterexample: a range field statement whose left bound is the
number 0 does not produce a Range clause — the falsiness test `!from` treats
the zero bound as absent, so `x:0..5` collapses to `Compare(LTE, x, 5)`. -/
theorem C1_zero_bound_counterexample :
    parse ("x:0..5") =
      .ok [{ type := .LTE, kind := "LTE", field := some ("x"),
             value := some (.num 5) }] ∧
    ¬ parse ("x:0..5") =
        .ok [{ type := .Range, kind := "Range", field := some ("x"),
               fromV := some (.num 0), toV := some (.num 5) }] := by
  constructor
  · decide
  · decide

/-- Claim C1 (amended): `*..X` produces `Compare(LTE, field, X)` and a left
bound resolving to the number 0 is treated the same way (`f:0..X` gives
`Compare(LTE, field, X)`, `f:0..*` gives an LTE compare on `undefined`); a
truthy left bound with `X..*` or a right bound resolving to 0 produces
`Compare(GTE, field, from)`; both bounds present and truthy produce
`Range(field, from, to)`. -/
theorem C1_range_collapse :
    (∀ (f : String) (tv : JSVal), fieldRangeClause f .undef tv =
      { type := .LTE, kind := "LTE", field := some f, value := some tv }) ∧
    (∀ (f : String) (tv : JSVal), fieldRangeClause f (.num 0) tv =
      { type := .LTE, kind := "LTE", field := some f, value := some tv }) ∧
    (∀ (f : String) (fr : JSVal), truthy fr = true → fieldRangeClause f fr .undef =
      { type := .GTE, kind := "GTE", field := some f, value := some fr }) ∧
    (∀ (f : String) (fr : JSVal), truthy fr = true →
      fieldRangeClause f fr (.num 0) =
      { type := .GTE, kind := "GTE", field := some f, value := some fr }) ∧
    (∀ (f : String) (fr tv : JSVal), truthy fr = true → truthy tv = true →
      fieldRangeClause f fr tv =
      { type := .Range, kind := "Range", field := some f, fromV := some fr,
        toV := some tv }) ∧
    parse ("created:2020-01-01..*") =
      .ok [{ type := .GTE, kind := "GTE", field := some ("created"),
             value := some (.date ("2020-01-01")) }] ∧
    parse ("created:*..2020-01-01") =
      .ok [{ type := .LTE, kind := "LTE", field := some ("created"),
             value := some (.date ("2020-01-01")) }] ∧
    parse ("created:2020-01-01..2021-01-01") =
      .ok [{ type := .Range, kind := "Range", field := some ("created"),
             fromV := some (.date ("2020-01-01")),
             toV := some (.date ("2021-01-01")) }] ∧
    parse ("x:0..*") =
      .ok [{ type := .LTE, kind := "LTE", field := some ("x"),
             value := some .undef }] ∧
    parse ("x:5..0") =
      .ok [{ type := .GTE, kind := "GTE", field := some ("x"),
             value := some (.num 5) }] := by
  refine ⟨fun f tv => rfl, fun f tv => by simp [fieldRangeClause, truthy],
    ?_, ?_, ?_, by decide, by decide, by decide, by decide, by decide⟩
  · intro f fr h
    unfold fieldRangeClause
    rw [h]
    rfl
  · intro f fr h
    unfold fieldRangeClause
    rw [h]
    rfl
  · intro f fr tv h1 h2
    unfold fieldRangeClause
    rw [h1, h2]
    rfl

theorem C1_range_collapse_witness :
    truthy (.num 1) = true ∧
    fieldRangeClause ("f") (.num 1) (.num 2) =
      { type := .Range, kind := "Range", field := some ("f"),
        fromV := some (.num 1), toV := some (.num 2) } :=
  ⟨by decide, C1_range_collapse.2.2.2.2.1 ("f") (.num 1) (.num 2)
    (by decide) (by decide)⟩

/-- Claim C2 counterexample: an exception does cross the `parse` boundary — a
quoted term containing a raw control character (here a tab between the quotes)
makes the resolver's JSON string parse fail. -/
theorem C2_exception_counterexample :
    parse ("\"\t\"") =
      .error ("Bad control character in string literal in JSON") := by decide

/-- Claim C3 counterexample: the single bare word `NOT` does not parse to a
Term clause with value `NOT`: it is lexed as the negation keyword, the
dangling negative statement fails, and recovery discards it. -/
theorem C3_not_keyword_counterexample :
    parse ("NOT") = .ok [] ∧
    ¬ parse ("NOT") =
        .ok [{ type := .Term, kind := "Term", value := some (.str ("NOT")) }] := by
  constructor
  · decide
  · decide

/-- Claim C4 counterexample: a date-time with a negative offset `-08:00` is
not lexed as a single DateLiteral token (the source pattern only accepts a
`+HH:MM` offset); it shatters into Term/EQ/NumberLiteral tokens. -/
theorem C4_offset_counterexample :
    tokenize ("2020-01-01T00:00:00-08:00") =
      [⟨.Term, "2020-01-01T00"⟩, ⟨.EQ, ":"⟩, ⟨.NumberLiteral, "00"⟩,
       ⟨.EQ, ":"⟩, ⟨.Term, "00-08"⟩, ⟨.EQ, ":"⟩, ⟨.NumberLiteral, "00"⟩] ∧
    ¬ tokenize ("2020-01-01T00:00:00-08:00") =
        [⟨.DateLiteral, "2020-01-01T00:00:00-08:00"⟩] := by
  constructor
  · decide
  · decide

/-- Claim C6: a NumberLiteral or DateLiteral appearing as a bare term resolves
to its literal source text, while in comparable position it coerces to a
number or date: `parse("123")` yields a Term with the string `"123"`, while
`parse("x:>123")` yields a Compare whose value is the number 123. -/
theorem C6_literal_typing :
    (∀ s : String, visitTermNode (.numLit s) = .ok s) ∧
    (∀ s : String, visitTermNode (.dateLit s) = .ok s) ∧
    (∀ s : String, visitComparable (.num s) = .num (jsNumber s)) ∧
    (∀ s : String, visitComparable (.date s) = .date s) ∧
    parse ("123") =
      .ok [{ type := .Term, kind := "Term", value := some (.str ("123")) }] ∧
    parse ("x:>123") =
      .ok [{ type := .GT, kind := "GT", field := some ("x"),
             value := some (.num 123) }] :=
  ⟨fun _ => rfl, fun _ => rfl, fun _ => rfl, fun _ => rfl, by decide, by decide⟩

/-- Claim C7 counterexample: a backslash-escaped line terminator does not have
its backslash stripped — the replacement regex's `.` does not match a newline,
so `parse` of the two-character term `a\` + newline keeps the backslash. -/
theorem C7_escape_counterexample :
    parse ("a\\\n") =
      .ok [{ type := .Term, kind := "Term", value := some (.str ("a\\\n")) }] ∧
    ¬ parse ("a\\\n") =
        .ok [{ type := .Term, kind := "Term", value := some (.str ("a\n")) }] := by
  constructor
  · decide
  · decide

/-- Claim C7 (amended): a raw Term token resolves to its unescaped text, where
every backslash-escaped character other than a line terminator has its
backslash stripped and is kept literally (a backslash before a line terminator
is preserved): `parse("a\:b")` yields one Term clause `a:b` and an escaped
space keeps two words in one term. -/
theorem C7_escape :
    parse ("a\\:b") =
      .ok [{ type := .Term, kind := "Term", value := some (.str ("a:b")) }] ∧
    parse ("a\\ b") =
      .ok [{ type := .Term, kind := "Term", value := some (.str ("a b")) }] ∧
    (∀ (c : Char) (cs : List Char), lineTerminator c = false →
      escapeTermAux (chr92 :: c :: cs) = c :: escapeTermAux cs) ∧
    (∀ (c : Char) (cs : List Char), lineTerminator c = true →
      escapeTermAux (chr92 :: c :: cs) = chr92 :: escapeTermAux (c :: cs)) := by
  refine ⟨by decide, by decide, ?_, ?_⟩
  · intro c cs h
    simp [escapeTermAux, chr92, h]
  · intro c cs h
    simp [escapeTermAux, chr92, h]

theorem C7_escape_witness :
    lineTerminator ('x') = false ∧ escapeTermAux (chr92 :: 'x' :: []) = ['x'] := by
  refine ⟨by decide, ?_⟩
  rw [C7_escape.2.2.1 'x' [] (by decide)]
  rfl

/-! ### Clause invariants -/

theorem visitStatement_inv {st : Stmt} {c : Clause}
    (h : visitStatement st = .ok c) :
    clauseConsistent c ∧ (c.exclude = none ∨ c.exclude = some true) := by
  induction st generalizing c with
  | neg s ih =>
    rw [visitStatement_neg] at h
    cases hv : visitStatement s with
    | error e => rw [hv] at h; exact absurd h (by simp [Except.map])
    | ok c0 =>
      rw [hv] at h
      have hc : c = toggleExclude c0 := by
        simpa [Except.map] using h.symm
      subst hc
      obtain ⟨h1, _⟩ := ih hv
      unfold toggleExclude
      split
      · exact ⟨by simpa [clauseConsistent] using h1, Or.inl rfl⟩
      · exact ⟨by simpa [clauseConsistent] using h1, Or.inr rfl⟩
  | fieldR f r =>
    have hc : c = fieldRangeClause f (visitRange r).1 (visitRange r).2 := by
      simpa [visitStatement] using h.symm
    subst hc
    unfold fieldRangeClause
    split
    · exact ⟨by simp [clauseConsistent, kindOf, isCompareType], Or.inl rfl⟩
    · split
      · exact ⟨by simp [clauseConsistent, kindOf, isCompareType], Or.inl rfl⟩
      · exact ⟨by simp [clauseConsistent, kindOf, isCompareType], Or.inl rfl⟩
  | fieldT f t =>
    cases hv : visitTermNode t with
    | error e => rw [visitStatement, hv] at h; exact absurd h (by simp [Except.map])
    | ok v =>
      rw [visitStatement, hv] at h
      have hc : c = { type := .Field, kind := "Field", field := some f,
                      value := some (.str v) } := by
        simpa [Except.map] using h.symm
      subst hc
      exact ⟨by simp [clauseConsistent, kindOf, isCompareType], Or.inl rfl⟩
  | cmp f op cb =>
    have hc : c = { type := cmpType op, kind := cmpKindStr op,
                    field := some f,
                    value := some (visitComparable cb) } := by
      simpa [visitStatement] using h.symm
    subst hc
    cases op <;>
      exact ⟨by simp [clauseConsistent, kindOf, isCompareType, cmpType,
        cmpKindStr], Or.inl rfl⟩
  | term t =>
    cases hv : visitTermNode t with
    | error e => rw [visitStatement, hv] at h; exact absurd h (by simp [Except.map])
    | ok v =>
      rw [visitStatement, hv] at h
      have hc : c = { type := .Term, kind := "Term",
                      value := some (.str v) } := by
        simpa [Except.map] using h.symm
      subst hc
      exact ⟨by simp [clauseConsistent, kindOf, isCompareType], Or.inl rfl⟩

theorem visitStatements_mem {l : List Stmt} {cs : List Clause} {c : Clause}
    (h1 : visitStatements l = .ok cs) (h2 : c ∈ cs) :
    ∃ st ∈ l, visitStatement st = .ok c := by
  induction l generalizing cs with
  | nil =>
    simp [visitStatements] at h1
    subst h1
    simp at h2
  | cons s rest ih =>
    rw [visitStatements] at h1
    cases hv : visitStatement s with
    | error e => rw [hv] at h1; exact absurd h1 (by simp)
    | ok c0 =>
      rw [hv] at h1
      cases hr : visitStatements rest with
      | error e => rw [hr] at h1; exact absurd h1 (by simp)
      | ok cs0 =>
        rw [hr] at h1
        have : cs = c0 :: cs0 := by simpa using h1.symm
        subst this
        rcases List.mem_cons.mp h2 with hc | hc
        · exact ⟨s, by simp, hc ▸ hv⟩
        · obtain ⟨st, hst, hv2⟩ := ih hr hc
          exact ⟨st, by simp [hst], hv2⟩

/-- Claim C8: every clause in a `parse` result has a consistent `type`/`kind`
tag pair, a Range clause always carries both `from` and `to`, a compare clause
carries exactly one value, and no emitted compare clause has kind `EQ`. -/
theorem C8_tag_payload (s : String) (cs : List Clause) (c : Clause)
    (h1 : parse s = .ok cs) (h2 : c ∈ cs) : clauseConsistent c := by
  unfold parse at h1
  obtain ⟨st, _, hv⟩ := visitStatements_mem h1 h2
  exact (visitStatement_inv hv).1

theorem C8_tag_payload_witness :
    parse ("x:>1") =
      .ok [{ type := .GT, kind := "GT", field := some ("x"),
             value := some (.num 1) }] ∧
    clauseConsistent { type := .GT, kind := "GT", field := some ("x"),
                       value := some (.num 1) } :=
  ⟨by decide,
   C8_tag_payload ("x:>1")
     [{ type := .GT, kind := "GT", field := some ("x"),
        value := some (.num 1) }]
     { type := .GT, kind := "GT", field := some ("x"), value := some (.num 1) }
     (by decide) (by simp)⟩

/-- Claim C10: the `exclude` key of an output clause is never `false`: it is
either absent (an even number of negation wrappers deletes it rather than
setting it to `false`) or exactly `true`. -/
theorem C10_exclude_never_false (s : String) (cs : List Clause) (c : Clause)
    (h1 : parse s = .ok cs) (h2 : c ∈ cs) :
    c.exclude = none ∨ c.exclude = some true := by
  unfold parse at h1
  obtain ⟨st, _, hv⟩ := visitStatements_mem h1 h2
  exact (visitStatement_inv hv).2

theorem C10_exclude_never_false_witness :
    parse ("-a") =
      .ok [{ type := .Term, kind := "Term", value := some (.str ("a")),
             exclude := some true }] ∧
    (({ type := .Term, kind := "Term", value := some (.str ("a")),
        exclude := some true } : Clause).exclude = none ∨
     ({ type := .Term, kind := "Term", value := some (.str ("a")),
        exclude := some true } : Clause).exclude = some true) :=
  ⟨by decide,
   C10_exclude_never_false ("-a")
     [{ type := .Term, kind := "Term", value := some (.str ("a")),
        exclude := some true }]
     { type := .Term, kind := "Term", value := some (.str ("a")),
       exclude := some true }
     (by decide) (by simp)⟩

/-! ### Totality of resolution away from bad quoted terms -/

theorem parseTermNode_jsonOk {toks : List Token} {tn : TermNode}
    {r : List Token} (hp : parseTermNode toks = some (tn, r))
    (h : ∀ t ∈ toks, tokJsonOk t = true) : termNodeJsonOk tn = true := by
  cases toks with
  | nil => simp [parseTermNode] at hp
  | cons t rest =>
    have ht := h t (by simp)
    rw [parseTermNode] at hp
    cases hk : t.kind <;> rw [hk] at hp <;> try simp at hp
    all_goals
      obtain ⟨h1, h2⟩ := hp
    · subst h1; rfl
    · subst h1; rfl
    · subst h1; rfl
    · subst h1
      unfold tokJsonOk at ht
      rw [hk] at ht
      simp at ht
      simpa [termNodeJsonOk] using ht
    · subst h1; rfl

theorem parseComparable_rest {toks : List Token} {cb : Comparable}
    {r : List Token} (hp : parseComparable toks = some (cb, r)) :
    ∀ t ∈ r, t ∈ toks := by
  cases toks with
  | nil => simp [parseComparable] at hp
  | cons t rest =>
    rw [parseComparable] at hp
    split at hp
    · obtain ⟨h1, h2⟩ := by simpa using hp
      subst h2
      intro u hu
      simp [hu]
    · split at hp
      · obtain ⟨h1, h2⟩ := by simpa using hp
        subst h2
        intro u hu
        simp [hu]
      · simp at hp

theorem parseTermNode_rest {toks : List Token} {tn : TermNode}
    {r : List Token} (hp : parseTermNode toks = some (tn, r)) :
    ∀ t ∈ r, t ∈ toks := by
  cases toks with
  | nil => simp [parseTermNode] at hp
  | cons t rest =>
    rw [parseTermNode] at hp
    cases hk : t.kind <;> rw [hk] at hp <;> try simp at hp
    all_goals obtain ⟨h1, h2⟩ := hp
    all_goals subst h2
    all_goals intro u hu
    all_goals simp [hu]

theorem parseRange_rest {toks : List Token} {rn : RangeNode}
    {r : List Token} (hp : parseRange toks = some (rn, r)) :
    ∀ t ∈ r, t ∈ toks := by
  cases toks with
  | nil => simp [parseRange] at hp
  | cons t rest =>
    rw [parseRange.eq_def] at hp
    simp only [] at hp
    split at hp
    · cases rest with
      | nil => simp at hp
      | cons d rest2 =>
        simp only [] at hp
        split at hp
        · rcases Option.map_eq_some'.mp hp with ⟨⟨cb, r2⟩, hcb, hpair⟩
          obtain ⟨h1, h2⟩ := by simpa using hpair
          subst h2
          intro u hu
          have := parseComparable_rest hcb u hu
          simp [this]
        · simp at hp
    · split at hp
      case h_2 => simp at hp
      case h_1 cb tail d rest2 heq =>
        split at hp
        · cases rest2 with
          | nil => simp at hp
          | cons s0 rest3 =>
            simp only [] at hp
            split at hp
            · obtain ⟨h1, h2⟩ := by simpa using hp
              subst h2
              intro u hu
              have hmem := parseComparable_rest heq u (by simp [hu])
              exact hmem
            · rcases Option.map_eq_some'.mp hp with ⟨⟨cb2, r2⟩, hcb2, hpair⟩
              obtain ⟨h1, h2⟩ := by simpa using hpair
              subst h2
              intro u hu
              have h3 := parseComparable_rest hcb2 u hu
              have hmem := parseComparable_rest heq
              exact hmem u (by simp [h3])
        · simp at hp

theorem parseFieldTail_jsonOk {f : String} {toks : List Token} {st : Stmt}
    {r : List Token} (hp : parseFieldTail f toks = some (st, r))
    (h : ∀ t ∈ toks, tokJsonOk t = true) : stmtJsonOk st = true := by
  unfold parseFieldTail at hp
  split at hp
  · rcases Option.map_eq_some'.mp hp with ⟨⟨rn, r2⟩, _, hpair⟩
    obtain ⟨h1, h2⟩ := by simpa using hpair
    subst h1
    rfl
  · rcases Option.map_eq_some'.mp hp with ⟨⟨tn, r2⟩, htn, hpair⟩
    obtain ⟨h1, h2⟩ := by simpa using hpair
    subst h1
    simpa [stmtJsonOk] using parseTermNode_jsonOk htn h

theorem parseFieldTail_rest {f : String} {toks : List Token} {st : Stmt}
    {r : List Token} (hp : parseFieldTail f toks = some (st, r)) :
    ∀ t ∈ r, t ∈ toks := by
  unfold parseFieldTail at hp
  split at hp
  · rcases Option.map_eq_some'.mp hp with ⟨⟨rn, r2⟩, hrn, hpair⟩
    obtain ⟨h1, h2⟩ := by simpa using hpair
    subst h2
    exact parseRange_rest hrn
  · rcases Option.map_eq_some'.mp hp with ⟨⟨tn, r2⟩, htn, hpair⟩
    obtain ⟨h1, h2⟩ := by simpa using hpair
    subst h2
    exact parseTermNode_rest htn

theorem parseSimpleStatement_jsonOk {toks : List Token} {st : Stmt}
    {r : List Token} (hp : parseSimpleStatement toks = some (st, r))
    (h : ∀ t ∈ toks, tokJsonOk t = true) : stmtJsonOk st = true := by
  unfold parseSimpleStatement at hp
  split at hp
  case h_1 t u rest2 =>
    split at hp
    · split at hp
      · exact parseFieldTail_jsonOk hp fun v hv => h v (by simp [hv])
      · split at hp
        · rcases Option.map_eq_some'.mp hp with ⟨⟨cb, r2⟩, _, hpair⟩
          obtain ⟨h1, h2⟩ := by simpa using hpair
          subst h1
          rfl
        · rcases Option.map_eq_some'.mp hp with ⟨⟨tn, r2⟩, htn, hpair⟩
          obtain ⟨h1, h2⟩ := by simpa using hpair
          subst h1
          simpa [stmtJsonOk] using parseTermNode_jsonOk htn h
    · rcases Option.map_eq_some'.mp hp with ⟨⟨tn, r2⟩, htn, hpair⟩
      obtain ⟨h1, h2⟩ := by simpa using hpair
      subst h1
      simpa [stmtJsonOk] using parseTermNode_jsonOk htn h
  case h_2 =>
    rcases Option.map_eq_some'.mp hp with ⟨⟨tn, r2⟩, htn, hpair⟩
    obtain ⟨h1, h2⟩ := by simpa using hpair
    subst h1
    simpa [stmtJsonOk] using parseTermNode_jsonOk htn h

theorem parseSimpleStatement_rest {toks : List Token} {st : Stmt}
    {r : List Token} (hp : parseSimpleStatement toks = some (st, r)) :
    ∀ t ∈ r, t ∈ toks := by
  unfold parseSimpleStatement at hp
  split at hp
  case h_1 t u rest2 =>
    split at hp
    · split at hp
      · intro v hv
        have := parseFieldTail_rest hp v hv
        simp [this]
      · split at hp
        · rcases Option.map_eq_some'.mp hp with ⟨⟨cb, r2⟩, hcb, hpair⟩
          obtain ⟨h1, h2⟩ := by simpa using hpair
          subst h2
          intro v hv
          have := parseComparable_rest hcb v hv
          simp [this]
        · rcases Option.map_eq_some'.mp hp with ⟨⟨tn, r2⟩, htn, hpair⟩
          obtain ⟨h1, h2⟩ := by simpa using hpair
          subst h2
          exact parseTermNode_rest htn
    · rcases Option.map_eq_some'.mp hp with ⟨⟨tn, r2⟩, htn, hpair⟩
      obtain ⟨h1, h2⟩ := by simpa using hpair
      subst h2
      exact parseTermNode_rest htn
  case h_2 =>
    rcases Option.map_eq_some'.mp hp with ⟨⟨tn, r2⟩, htn, hpair⟩
    obtain ⟨h1, h2⟩ := by simpa using hpair
    subst h2
    exact parseTermNode_rest htn

theorem parseStatement_jsonOk {toks : List Token} {st : Stmt}
    {r : List Token} (hp : parseStatement toks = some (st, r))
    (h : ∀ t ∈ toks, tokJsonOk t = true) : stmtJsonOk st = true := by
  induction toks generalizing st r with
  | nil => simp [parseStatement] at hp
  | cons t rest ih =>
    rw [parseStatement] at hp
    split at hp
    · cases hr : parseStatement rest with
      | none => rw [hr] at hp; simp at hp
      | some p =>
        rw [hr] at hp
        obtain ⟨h1, h2⟩ := by simpa using hp
        subst h1
        have := ih (show parseStatement rest = some (p.1, p.2) by simp [hr])
          fun v hv => h v (by simp [hv])
        simpa [stmtJsonOk] using this
    · exact parseSimpleStatement_jsonOk hp h

theorem parseStatement_rest {toks : List Token} {st : Stmt}
    {r : List Token} (hp : parseStatement toks = some (st, r)) :
    ∀ t ∈ r, t ∈ toks := by
  induction toks generalizing st r with
  | nil => simp [parseStatement] at hp
  | cons t rest ih =>
    rw [parseStatement] at hp
    split at hp
    · cases hr : parseStatement rest with
      | none => rw [hr] at hp; simp at hp
      | some p =>
        rw [hr] at hp
        obtain ⟨h1, h2⟩ := by simpa using hp
        subst h2
        intro v hv
        have := ih (show parseStatement rest = some (p.1, p.2) by simp [hr]) v hv
        simp [this]
    · exact parseSimpleStatement_rest hp

theorem parseStatements_jsonOk (fuel : Nat) :
    ∀ (toks : List Token), (∀ t ∈ toks, tokJsonOk t = true) →
      ∀ st ∈ parseStatements fuel toks, stmtJsonOk st = true := by
  induction fuel with
  | zero => intro toks _ st hst; simp [parseStatements] at hst
  | succ fuel ih =>
    intro toks h st hst
    cases toks with
    | nil => simp [parseStatements] at hst
    | cons t rest =>
      rw [parseStatements] at hst
      cases hr : parseStatement (t :: rest) with
      | none =>
        rw [hr] at hst
        exact ih rest (fun v hv => h v (by simp [hv])) st hst
      | some p =>
        rw [hr] at hst
        rcases List.mem_cons.mp hst with hs | hs
        · subst hs
          exact parseStatement_jsonOk (by simpa using hr) h
        · refine ih p.2 ?_ st hs
          intro v hv
          exact h v (parseStatement_rest (by simpa using hr) v hv)

theorem visitTermNode_total {tn : TermNode} (h : termNodeJsonOk tn = true) :
    ∃ v, visitTermNode tn = .ok v := by
  cases tn with
  | quoted s =>
    simp only [termNodeJsonOk] at h
    cases hq : jsonParseQuoted s with
    | ok v => exact ⟨v, by simpa [visitTermNode] using hq⟩
    | error e => rw [hq] at h; simp [exceptIsOk] at h
  | ident s => exact ⟨s, rfl⟩
  | dateLit s => exact ⟨s, rfl⟩
  | numLit s => exact ⟨s, rfl⟩
  | rawTerm s => exact ⟨escapeTerm s, rfl⟩

theorem visitStatement_total {st : Stmt} (h : stmtJsonOk st = true) :
    ∃ c, visitStatement st = .ok c := by
  induction st with
  | neg s ih =>
    obtain ⟨c, hc⟩ := ih (by simpa [stmtJsonOk] using h)
    exact ⟨toggleExclude c, by rw [visitStatement_neg, hc]; rfl⟩
  | fieldR f r => exact ⟨_, rfl⟩
  | fieldT f t =>
    obtain ⟨v, hv⟩ := visitTermNode_total (by simpa [stmtJsonOk] using h)
    exact ⟨_, by rw [visitStatement, hv]; rfl⟩
  | cmp f op cb => exact ⟨_, rfl⟩
  | term t =>
    obtain ⟨v, hv⟩ := visitTermNode_total (by simpa [stmtJsonOk] using h)
    exact ⟨_, by rw [visitStatement, hv]; rfl⟩

theorem visitStatements_total {l : List Stmt}
    (h : ∀ st ∈ l, stmtJsonOk st = true) :
    ∃ cs, visitStatements l = .ok cs := by
  induction l with
  | nil => exact ⟨[], rfl⟩
  | cons s rest ih =>
    obtain ⟨c, hc⟩ := visitStatement_total (h s (by simp))
    obtain ⟨cs, hcs⟩ := ih fun v hv => h v (by simp [hv])
    exact ⟨c :: cs, by rw [visitStatements, hc, hcs]⟩

/-- Claim C2 (amended): `parse` returns normally on every input whose quoted
terms all pass JSON string parsing (in particular whenever no raw control
character sits between quotes); a quoted term with a raw control character is
the one exception — there the resolver's JSON string parse fails and the error
escapes `parse`. -/
theorem C2_no_exception (s : String)
    (h : ∀ t ∈ tokenize s, tokJsonOk t = true) :
    ∃ cs, parse s = .ok cs := by
  unfold parse
  exact visitStatements_total
    (parseStatements_jsonOk (tokenize s).length (tokenize s) h)

theorem C2_no_exception_witness :
    (∀ t ∈ tokenize ("\"hi there\" x:1..2"), tokJsonOk t = true) ∧
    ∃ cs, parse ("\"hi there\" x:1..2") = .ok cs :=
  ⟨by decide, C2_no_exception ("\"hi there\" x:1..2") (by decide)⟩

/-! ### Bare-word lexing -/

theorem bare_plain {c : Char} (h : bareChar c = true) : termPlainChar c = true := by
  simp [bareChar, chr92] at h
  simp [termPlainChar]
  tauto

theorem bare_not_backslash {c : Char} (h : bareChar c = true) : ¬c = '\\' := by
  simp [bareChar, chr92] at h
  tauto

theorem termRun_all_bare {l : List Char} (h : ∀ c ∈ l, bareChar c = true) :
    termRun l = l.length := by
  induction l with
  | nil => rfl
  | cons c cs ih =>
    rw [termRun_plain cs (bare_plain (h c (by simp)))]
    rw [ih fun d hd => h d (by simp [hd])]
    simp

theorem litLen_cons_ne {p c : Char} {ps cs : List Char} (h : ¬p = c) :
    litLen (p :: ps) (c :: cs) = none := by
  unfold litLen
  rw [if_neg]
  intro habs
  simp [List.isPrefixOf] at habs
  exact h habs.1

theorem spLen_cons_none {c : Char} (cs : List Char)
    (h : jsWhitespace c = false) : spLen (c :: cs) = none := by
  simp [spLen, wsRun, h]

theorem quotedLen_cons_none {c : Char} (cs : List Char) (h : ¬c = '"') :
    quotedLen (c :: cs) = none := by
  simp [quotedLen, h]

theorem idRun_le (l : List Char) : idRun l ≤ l.length := by
  induction l with
  | nil => exact le_refl 0
  | cons c cs ih =>
    rw [idRun]
    split
    · simpa using ih
    · simp

theorem digitRun_le (l : List Char) : digitRun l ≤ l.length := by
  induction l with
  | nil => exact le_refl 0
  | cons c cs ih =>
    rw [digitRun]
    split
    · simpa using ih
    · simp

theorem idLen_le {l : List Char} {n : Nat} (h : idLen l = some n) :
    n ≤ l.length := by
  cases l with
  | nil => simp [idLen] at h
  | cons c cs =>
    simp only [idLen] at h
    split at h
    · cases h
      have := idRun_le cs
      simp
      omega
    · simp at h

theorem numLen_le {l : List Char} {n : Nat} (h : numLen l = some n) :
    n ≤ l.length := by
  simp only [numLen] at h
  split at h
  · simp at h
  · rename_i hd0
    have hd := digitRun_le l
    split at h
    case h_1 c r2 heq =>
      have hr2 : r2.length = l.length - digitRun l - 1 := by
        have := congrArg List.length heq
        simp [List.length_drop] at this
        omega
      split at h
      · have hf := digitRun_le r2
        split at h
        · cases h; omega
        · cases h; omega
      · cases h; omega
    case h_2 heq =>
      cases h
      have := congrArg List.length heq
      simp [List.length_drop] at this
      omega

theorem timeLen_le {l : List Char} {n : Nat} (h : timeLen l = some n) :
    n ≤ l.length := by
  unfold timeLen at h
  repeat' split at h
  all_goals first | (cases h; simp; try omega) | simp at h

theorem dateLitLen_le {l : List Char} {n : Nat} (h : dateLitLen l = some n) :
    n ≤ l.length := by
  unfold dateLitLen at h
  split at h
  case h_2 => simp at h
  case h_1 =>
    split at h
    case isFalse => simp at h
    case isTrue =>
      split at h
      case h_2 =>
        cases h
        simp
      case h_1 m hm =>
        cases h
        have := timeLen_le hm
        simp
        omega

theorem notLen_eq_three {l : List Char} {n : Nat} (h : notLen l = some n) :
    n = 3 ∧ ['N', 'O', 'T'].isPrefixOf l = true := by
  have := litLen_eq h
  simpa using this

theorem notLen_shape {l : List Char}
    (h : List.isPrefixOf ['N', 'O', 'T'] l = true) :
    ∃ rest, l = 'N' :: 'O' :: 'T' :: rest := by
  cases l with
  | nil => simp [List.isPrefixOf] at h
  | cons a l1 =>
    cases l1 with
    | nil => simp [List.isPrefixOf] at h
    | cons b l2 =>
      cases l2 with
      | nil => simp [List.isPrefixOf] at h
      | cons c rest =>
        simp [List.isPrefixOf] at h
        obtain ⟨ha, hb, hc⟩ := h
        subst ha
        subst hb
        subst hc
        exact ⟨rest, rfl⟩

theorem bare_ws {c : Char} (h : bareChar c = true) : jsWhitespace c = false := by
  simp [bareChar, chr92] at h
  tauto

theorem bare_ne {c : Char} (h : bareChar c = true) :
    ¬c = ':' ∧ ¬c = '.' ∧ ¬c = '"' ∧ ¬c = '*' ∧ ¬c = '-' := by
  simp [bareChar, chr92] at h
  tauto

theorem nextTok_bare {c : Char} {cs : List Char}
    (hb : ∀ d ∈ c :: cs, bareChar d = true)
    (hnot : c :: cs ≠ ['N', 'O', 'T']) :
    ∃ k : TokKind,
      (k = .ID ∨ k = .DateLiteral ∨ k = .NumberLiteral ∨ k = .Term) ∧
      nextTok (c :: cs) = (some ⟨k, ⟨c :: cs⟩⟩, (c :: cs).length) := by
  have hbc := hb c (by simp)
  have hlen : termRun (c :: cs) = (c :: cs).length := termRun_all_bare hb
  have hterm : termLen (c :: cs) = some (c :: cs).length := by
    unfold termLen
    rw [hlen, if_neg (by simp)]
  have hsp : spLen (c :: cs) = none := spLen_cons_none cs (bare_ws hbc)
  obtain ⟨hcol, hdot, hquote, hstar, hminus⟩ := bare_ne hbc
  have hminusL : minusLen (c :: cs) = none := litLen_cons_ne (Ne.symm hminus)
  cases hnt : notLen (c :: cs) with
  | some n =>
    obtain ⟨rfl, hpre⟩ := notLen_eq_three hnt
    by_cases h3 : 3 < (c :: cs).length
    · refine ⟨.Term, by simp, ?_⟩
      simp only [nextTok, hsp, hnt, longerAlt, hterm]
      rw [if_pos h3]
      simp [mkTok, List.take_length]
    · exfalso
      obtain ⟨rest, hrest⟩ := notLen_shape hpre
      rw [hrest] at h3
      simp only [List.length_cons] at h3
      have hr : rest = [] := by
        have hl0 : rest.length = 0 := by omega
        exact List.eq_nil_of_length_eq_zero hl0
      subst hr
      exact hnot (by rw [hrest])
  | none =>
    cases hid : idLen (c :: cs) with
    | some n =>
      have hle := idLen_le hid
      by_cases hlt : n < (c :: cs).length
      · refine ⟨.Term, by simp, ?_⟩
        simp only [nextTok, hsp, hnt, hminusL, hid, longerAlt, hterm]
        rw [if_pos hlt]
        simp [mkTok, List.take_length]
      · have heqn : n = (c :: cs).length := by omega
        refine ⟨.ID, by simp, ?_⟩
        simp only [nextTok, hsp, hnt, hminusL, hid, longerAlt, hterm]
        rw [if_neg hlt]
        subst heqn
        simp [mkTok, List.take_length]
    | none =>
      have hgteL : gteLen (c :: cs) = none := litLen_cons_ne (Ne.symm hcol)
      have hgtL : gtLen (c :: cs) = none := litLen_cons_ne (Ne.symm hcol)
      have hlteL : lteLen (c :: cs) = none := litLen_cons_ne (Ne.symm hcol)
      have hltL : ltLen (c :: cs) = none := litLen_cons_ne (Ne.symm hcol)
      have heqL : eqLen (c :: cs) = none := litLen_cons_ne (Ne.symm hcol)
      have hddL : doubleDotLen (c :: cs) = none := litLen_cons_ne (Ne.symm hdot)
      have hstarL : starLen (c :: cs) = none := litLen_cons_ne (Ne.symm hstar)
      have hqL : quotedLen (c :: cs) = none := quotedLen_cons_none cs hquote
      cases hdt : dateLitLen (c :: cs) with
      | some n =>
        have hle := dateLitLen_le hdt
        by_cases hlt : n < (c :: cs).length
        · refine ⟨.Term, by simp, ?_⟩
          simp only [nextTok, hsp, hnt, hminusL, hid, hgteL, hgtL, hlteL,
            hltL, heqL, hddL, hstarL, hdt, longerAlt, hterm]
          rw [if_pos hlt]
          simp [mkTok, List.take_length]
        · have heqn : n = (c :: cs).length := by omega
          refine ⟨.DateLiteral, by simp, ?_⟩
          simp only [nextTok, hsp, hnt, hminusL, hid, hgteL, hgtL, hlteL,
            hltL, heqL, hddL, hstarL, hdt, longerAlt, hterm]
          rw [if_neg hlt]
          subst heqn
          simp [mkTok, List.take_length]
      | none =>
        cases hnum : numLen (c :: cs) with
        | some n =>
          have hle := numLen_le hnum
          by_cases hlt : n < (c :: cs).length
          · refine ⟨.Term, by simp, ?_⟩
            simp only [nextTok, hsp, hnt, hminusL, hid, hgteL, hgtL, hlteL,
              hltL, heqL, hddL, hstarL, hdt, hnum, longerAlt, hterm]
            rw [if_pos hlt]
            simp [mkTok, List.take_length]
          · have heqn : n = (c :: cs).length := by omega
            refine ⟨.NumberLiteral, by simp, ?_⟩
            simp only [nextTok, hsp, hnt, hminusL, hid, hgteL, hgtL, hlteL,
              hltL, heqL, hddL, hstarL, hdt, hnum, longerAlt, hterm]
            rw [if_neg hlt]
            subst heqn
            simp [mkTok, List.take_length]
        | none =>
          refine ⟨.Term, by simp, ?_⟩
          simp only [nextTok, hsp, hnt, hminusL, hid, hgteL, hgtL, hlteL,
            hltL, heqL, hddL, hstarL, hdt, hnum, hqL, hterm]
          simp [mkTok, List.take_length]

theorem tokList_bare {l : List Char} (hne : l ≠ [])
    (hb : ∀ c ∈ l, bareChar c = true) (hnot : l ≠ ['N', 'O', 'T']) :
    ∃ k : TokKind,
      (k = .ID ∨ k = .DateLiteral ∨ k = .NumberLiteral ∨ k = .Term) ∧
      tokList l = [⟨k, ⟨l⟩⟩] := by
  cases l with
  | nil => exact absurd rfl hne
  | cons c cs =>
    obtain ⟨k, hk, hnt⟩ := nextTok_bare hb hnot
    refine ⟨k, hk, ?_⟩
    rw [tokList_cons, hnt]
    simp only [List.drop_length]
    rfl

theorem escapeTermAux_id {l : List Char} (h : ∀ c ∈ l, ¬c = '\\') :
    escapeTermAux l = l := by
  induction l with
  | nil => rfl
  | cons c rest ih =>
    cases rest with
    | nil => rfl
    | cons d cs =>
      have hc := h c (by simp)
      simp only [escapeTermAux]
      rw [if_neg hc]
      rw [ih fun x hx => h x (List.mem_cons_of_mem c hx)]

/-- Claim C3 (amended): every single bare word with no special characters,
other than the exact word `NOT`, parses to exactly one Term clause whose value
is that word (a word merely beginning with `NOT` falls back to a generic term
by longest-match). -/
theorem C3_bare_word (w : String) (h1 : w.data ≠ [])
    (h2 : ∀ c ∈ w.data, bareChar c = true) (h3 : ¬w = "NOT") :
    parse w = .ok [{ type := .Term, kind := "Term",
                     value := some (.str w) }] := by
  obtain ⟨data⟩ := w
  have hnot3 : data ≠ ['N', 'O', 'T'] := by
    intro hd
    apply h3
    subst hd
    decide
  obtain ⟨k, hk, htok⟩ := tokList_bare h1 h2 hnot3
  show visitStatements (parseAll (tokList data)) = _
  rw [htok]
  rcases hk with rfl | rfl | rfl | rfl
  · rfl
  · rfl
  · rfl
  · show visitStatements (parseStatements 1 [⟨.Term, ⟨data⟩⟩]) = _
    have hesc : escapeTermAux data = data :=
      escapeTermAux_id fun c hc => bare_not_backslash (h2 c hc)
    simp [parseStatements, parseStatement, parseSimpleStatement, parseTermNode,
      visitStatements, visitStatement, visitTermNode, escapeTerm, hesc]
    rfl

theorem C3_bare_word_witness :
    ("NOTable" : String).data ≠ [] ∧
    (∀ c ∈ ("NOTable" : String).data, bareChar c = true) ∧
    ¬("NOTable" : String) = "NOT" ∧
    parse ("NOTable") =
      .ok [{ type := .Term, kind := "Term",
             value := some (.str ("NOTable")) }] :=
  ⟨by decide, by decide, by decide,
   C3_bare_word ("NOTable") (by decide) (by decide) (by decide)⟩

/-! ### Digit character classes -/

theorem digit_not_ws {c : Char} (h : c.isDigit = true) :
    jsWhitespace c = false := by
  simp only [Char.isDigit, Bool.and_eq_true, decide_eq_true_eq, ge_iff_le,
    UInt32.le_def, BitVec.le_def] at h
  simp only [jsWhitespace, Char.ext_iff, UInt32.ext_iff, BitVec.toNat_eq,
    UInt32.le_def, BitVec.le_def, Bool.or_eq_false_iff, Bool.and_eq_false_iff,
    decide_eq_false_iff_not]
  norm_num [UInt32.toNat, show (' ').val.toNat = 32 from rfl,
    show (' ').val.toBitVec.toNat = 32 from rfl,
    show ('\t').val.toNat = 9 from rfl,
    show ('\t').val.toBitVec.toNat = 9 from rfl,
    show ('\n').val.toNat = 10 from rfl,
    show ('\n').val.toBitVec.toNat = 10 from rfl,
    show ('\r').val.toNat = 13 from rfl,
    show ('\r').val.toBitVec.toNat = 13 from rfl,
    show ((UInt32.toBitVec 11).toNat) = 11 from rfl,
    show ((UInt32.toBitVec 12).toNat) = 12 from rfl,
    show ((UInt32.toBitVec 160).toNat) = 160 from rfl,
    show ((UInt32.toBitVec 5760).toNat) = 5760 from rfl,
    show ((UInt32.toBitVec 8192).toNat) = 8192 from rfl,
    show ((UInt32.toBitVec 8202).toNat) = 8202 from rfl,
    show ((UInt32.toBitVec 8232).toNat) = 8232 from rfl,
    show ((UInt32.toBitVec 8233).toNat) = 8233 from rfl,
    show ((UInt32.toBitVec 8239).toNat) = 8239 from rfl,
    show ((UInt32.toBitVec 8287).toNat) = 8287 from rfl,
    show ((UInt32.toBitVec 12288).toNat) = 12288 from rfl,
    show ((UInt32.toBitVec 65279).toNat) = 65279 from rfl,
    show ((UInt32.toBitVec 48).toNat) = 48 from rfl,
    show ((UInt32.toBitVec 57).toNat) = 57 from rfl] at h ⊢
  omega

theorem digit_not_idStart {c : Char} (h : c.isDigit = true) :
    idStart c = false := by
  simp only [Char.isDigit, Bool.and_eq_true, decide_eq_true_eq, ge_iff_le,
    UInt32.le_def, BitVec.le_def] at h
  simp only [idStart, Char.ext_iff, UInt32.ext_iff, BitVec.toNat_eq,
    Char.le_def, UInt32.le_def, BitVec.le_def, Bool.or_eq_false_iff,
    Bool.and_eq_false_iff, decide_eq_false_iff_not]
  norm_num [UInt32.toNat, show ('a').val.toNat = 97 from rfl,
    show ('a').val.toBitVec.toNat = 97 from rfl,
    show ('z').val.toNat = 122 from rfl,
    show ('z').val.toBitVec.toNat = 122 from rfl,
    show ('A').val.toNat = 65 from rfl,
    show ('A').val.toBitVec.toNat = 65 from rfl,
    show ('Z').val.toNat = 90 from rfl,
    show ('Z').val.toBitVec.toNat = 90 from rfl,
    show ('_').val.toNat = 95 from rfl,
    show ('_').val.toBitVec.toNat = 95 from rfl,
    show ((UInt32.toBitVec 48).toNat) = 48 from rfl,
    show ((UInt32.toBitVec 57).toNat) = 57 from rfl] at h ⊢
  omega

theorem isDigit_ne {c d : Char} (hc : c.isDigit = true)
    (hd : d.isDigit = false) : ¬c = d := by
  intro h
  subst h
  rw [hc] at hd
  simp at hd

theorem digit_termPlain {c : Char} (h : c.isDigit = true) :
    termPlainChar c = true := by
  simp only [termPlainChar, Bool.and_eq_true, Bool.not_eq_true',
    decide_eq_false_iff_not]
  refine ⟨⟨⟨isDigit_ne h (by decide), digit_not_ws h⟩,
    isDigit_ne h (by decide)⟩, isDigit_ne h (by decide)⟩

theorem tokList_date10 {y1 y2 y3 y4 m1 m2 a1 a2 : Char}
    (h1 : y1.isDigit = true) (h2 : y2.isDigit = true) (h3 : y3.isDigit = true)
    (h4 : y4.isDigit = true) (h5 : m1.isDigit = true) (h6 : m2.isDigit = true)
    (h7 : a1.isDigit = true) (h8 : a2.isDigit = true) :
    tokList [y1, y2, y3, y4, '-', m1, m2, '-', a1, a2] =
      [⟨.DateLiteral, ⟨[y1, y2, y3, y4, '-', m1, m2, '-', a1, a2]⟩⟩] := by
  have hterm : termLen [y1, y2, y3, y4, '-', m1, m2, '-', a1, a2] = some 10 := by
    rw [termLen, termRun_plain _ (digit_termPlain h1),
      termRun_plain _ (digit_termPlain h2), termRun_plain _ (digit_termPlain h3),
      termRun_plain _ (digit_termPlain h4), termRun_plain _ (by decide),
      termRun_plain _ (digit_termPlain h5), termRun_plain _ (digit_termPlain h6),
      termRun_plain _ (by decide), termRun_plain _ (digit_termPlain h7),
      termRun_plain _ (digit_termPlain h8)]
    norm_num [termRun]
  have hdate : dateLitLen [y1, y2, y3, y4, '-', m1, m2, '-', a1, a2] =
      some 10 := by
    simp [dateLitLen, timeLen, h1, h2, h3, h4, h5, h6, h7, h8]
  have hsp : spLen [y1, y2, y3, y4, '-', m1, m2, '-', a1, a2] = none :=
    spLen_cons_none _ (digit_not_ws h1)
  have hnotL : notLen [y1, y2, y3, y4, '-', m1, m2, '-', a1, a2] = none :=
    litLen_cons_ne (Ne.symm (isDigit_ne h1 (by decide)))
  have hminusL : minusLen [y1, y2, y3, y4, '-', m1, m2, '-', a1, a2] = none :=
    litLen_cons_ne (Ne.symm (isDigit_ne h1 (by decide)))
  have hidL : idLen [y1, y2, y3, y4, '-', m1, m2, '-', a1, a2] = none := by
    simp [idLen, digit_not_idStart h1]
  have hgteL : gteLen [y1, y2, y3, y4, '-', m1, m2, '-', a1, a2] = none :=
    litLen_cons_ne (Ne.symm (isDigit_ne h1 (by decide)))
  have hgtL : gtLen [y1, y2, y3, y4, '-', m1, m2, '-', a1, a2] = none :=
    litLen_cons_ne (Ne.symm (isDigit_ne h1 (by decide)))
  have hlteL : lteLen [y1, y2, y3, y4, '-', m1, m2, '-', a1, a2] = none :=
    litLen_cons_ne (Ne.symm (isDigit_ne h1 (by decide)))
  have hltL : ltLen [y1, y2, y3, y4, '-', m1, m2, '-', a1, a2] = none :=
    litLen_cons_ne (Ne.symm (isDigit_ne h1 (by decide)))
  have heqL : eqLen [y1, y2, y3, y4, '-', m1, m2, '-', a1, a2] = none :=
    litLen_cons_ne (Ne.symm (isDigit_ne h1 (by decide)))
  have hddL : doubleDotLen [y1, y2, y3, y4, '-', m1, m2, '-', a1, a2] = none :=
    litLen_cons_ne (Ne.symm (isDigit_ne h1 (by decide)))
  have hstarL : starLen [y1, y2, y3, y4, '-', m1, m2, '-', a1, a2] = none :=
    litLen_cons_ne (Ne.symm (isDigit_ne h1 (by decide)))
  have hnt : nextTok [y1, y2, y3, y4, '-', m1, m2, '-', a1, a2] =
      (some ⟨.DateLiteral, ⟨[y1, y2, y3, y4, '-', m1, m2, '-', a1, a2]⟩⟩, 10) := by
    simp only [nextTok, hsp, hnotL, hminusL, hidL, hgteL, hgtL, hlteL, hltL,
      heqL, hddL, hstarL, hdate, longerAlt, hterm]
    rw [if_neg (by norm_num)]
    simp [mkTok, List.take]
  rw [tokList_cons, hnt]
  simp [List.drop]
  rfl

theorem tokList_date20 {y1 y2 y3 y4 m1 m2 a1 a2 r1 r2 i1 i2 s1 s2 : Char}
    (h1 : y1.isDigit = true) (h2 : y2.isDigit = true) (h3 : y3.isDigit = true)
    (h4 : y4.isDigit = true) (h5 : m1.isDigit = true) (h6 : m2.isDigit = true)
    (h7 : a1.isDigit = true) (h8 : a2.isDigit = true) (h9 : r1.isDigit = true)
    (h10 : r2.isDigit = true) (h11 : i1.isDigit = true)
    (h12 : i2.isDigit = true) (h13 : s1.isDigit = true)
    (h14 : s2.isDigit = true) :
    tokList [y1, y2, y3, y4, '-', m1, m2, '-', a1, a2, 'T',
             r1, r2, ':', i1, i2, ':', s1, s2, 'Z'] =
      [⟨.DateLiteral, ⟨[y1, y2, y3, y4, '-', m1, m2, '-', a1, a2, 'T',
                        r1, r2, ':', i1, i2, ':', s1, s2, 'Z']⟩⟩] := by
  have hterm : termLen [y1, y2, y3, y4, '-', m1, m2, '-', a1, a2, 'T',
      r1, r2, ':', i1, i2, ':', s1, s2, 'Z'] = some 13 := by
    rw [termLen, termRun_plain _ (digit_termPlain h1),
      termRun_plain _ (digit_termPlain h2), termRun_plain _ (digit_termPlain h3),
      termRun_plain _ (digit_termPlain h4), termRun_plain _ (by decide),
      termRun_plain _ (digit_termPlain h5), termRun_plain _ (digit_termPlain h6),
      termRun_plain _ (by decide), termRun_plain _ (digit_termPlain h7),
      termRun_plain _ (digit_termPlain h8), termRun_plain _ (by decide),
      termRun_plain _ (digit_termPlain h9), termRun_plain _ (digit_termPlain h10),
      termRun_stop _ (by decide) (by decide)]
    norm_num
  have hdate : dateLitLen [y1, y2, y3, y4, '-', m1, m2, '-', a1, a2, 'T',
      r1, r2, ':', i1, i2, ':', s1, s2, 'Z'] = some 20 := by
    simp [dateLitLen, timeLen, h1, h2, h3, h4, h5, h6, h7, h8, h9, h10, h11,
      h12, h13, h14]
  have hsp : spLen [y1, y2, y3, y4, '-', m1, m2, '-', a1, a2, 'T',
      r1, r2, ':', i1, i2, ':', s1, s2, 'Z'] = none :=
    spLen_cons_none _ (digit_not_ws h1)
  have hnotL : notLen [y1, y2, y3, y4, '-', m1, m2, '-', a1, a2, 'T',
      r1, r2, ':', i1, i2, ':', s1, s2, 'Z'] = none :=
    litLen_cons_ne (Ne.symm (isDigit_ne h1 (by decide)))
  have hminusL : minusLen [y1, y2, y3, y4, '-', m1, m2, '-', a1, a2, 'T',
      r1, r2, ':', i1, i2, ':', s1, s2, 'Z'] = none :=
    litLen_cons_ne (Ne.symm (isDigit_ne h1 (by decide)))
  have hidL : idLen [y1, y2, y3, y4, '-', m1, m2, '-', a1, a2, 'T',
      r1, r2, ':', i1, i2, ':', s1, s2, 'Z'] = none := by
    simp [idLen, digit_not_idStart h1]
  have hgteL : gteLen [y1, y2, y3, y4, '-', m1, m2, '-', a1, a2, 'T',
      r1, r2, ':', i1, i2, ':', s1, s2, 'Z'] = none :=
    litLen_cons_ne (Ne.symm (isDigit_ne h1 (by decide)))
  have hgtL : gtLen [y1, y2, y3, y4, '-', m1, m2, '-', a1, a2, 'T',
      r1, r2, ':', i1, i2, ':', s1, s2, 'Z'] = none :=
    litLen_cons_ne (Ne.symm (isDigit_ne h1 (by decide)))
  have hlteL : lteLen [y1, y2, y3, y4, '-', m1, m2, '-', a1, a2, 'T',
      r1, r2, ':', i1, i2, ':', s1, s2, 'Z'] = none :=
    litLen_cons_ne (Ne.symm (isDigit_ne h1 (by decide)))
  have hltL : ltLen [y1, y2, y3, y4, '-', m1, m2, '-', a1, a2, 'T',
      r1, r2, ':', i1, i2, ':', s1, s2, 'Z'] = none :=
    litLen_cons_ne (Ne.symm (isDigit_ne h1 (by decide)))
  have heqL : eqLen [y1, y2, y3, y4, '-', m1, m2, '-', a1, a2, 'T',
      r1, r2, ':', i1, i2, ':', s1, s2, 'Z'] = none :=
    litLen_cons_ne (Ne.symm (isDigit_ne h1 (by decide)))
  have hddL : doubleDotLen [y1, y2, y3, y4, '-', m1, m2, '-', a1, a2, 'T',
      r1, r2, ':', i1, i2, ':', s1, s2, 'Z'] = none :=
    litLen_cons_ne (Ne.symm (isDigit_ne h1 (by decide)))
  have hstarL : starLen [y1, y2, y3, y4, '-', m1, m2, '-', a1, a2, 'T',
      r1, r2, ':', i1, i2, ':', s1, s2, 'Z'] = none :=
    litLen_cons_ne (Ne.symm (isDigit_ne h1 (by decide)))
  have hnt : nextTok [y1, y2, y3, y4, '-', m1, m2, '-', a1, a2, 'T',
      r1, r2, ':', i1, i2, ':', s1, s2, 'Z'] =
      (some ⟨.DateLiteral, ⟨[y1, y2, y3, y4, '-', m1, m2, '-', a1, a2, 'T',
        r1, r2, ':', i1, i2, ':', s1, s2, 'Z']⟩⟩, 20) := by
    simp only [nextTok, hsp, hnotL, hminusL, hidL, hgteL, hgtL, hlteL, hltL,
      heqL, hddL, hstarL, hdate, longerAlt, hterm]
    rw [if_neg (by norm_num)]
    simp [mkTok, List.take]
  rw [tokList_cons, hnt]
  simp [List.drop]
  rfl

theorem tokList_date25 {y1 y2 y3 y4 m1 m2 a1 a2 r1 r2 i1 i2 s1 s2
    o1 o2 o3 o4 : Char}
    (h1 : y1.isDigit = true) (h2 : y2.isDigit = true) (h3 : y3.isDigit = true)
    (h4 : y4.isDigit = true) (h5 : m1.isDigit = true) (h6 : m2.isDigit = true)
    (h7 : a1.isDigit = true) (h8 : a2.isDigit = true) (h9 : r1.isDigit = true)
    (h10 : r2.isDigit = true) (h11 : i1.isDigit = true)
    (h12 : i2.isDigit = true) (h13 : s1.isDigit = true)
    (h14 : s2.isDigit = true) (h15 : o1.isDigit = true)
    (h16 : o2.isDigit = true) (h17 : o3.isDigit = true)
    (h18 : o4.isDigit = true) :
    tokList [y1, y2, y3, y4, '-', m1, m2, '-', a1, a2, 'T',
             r1, r2, ':', i1, i2, ':', s1, s2, '+', o1, o2, ':', o3, o4] =
      [⟨.DateLiteral, ⟨[y1, y2, y3, y4, '-', m1, m2, '-', a1, a2, 'T',
        r1, r2, ':', i1, i2, ':', s1, s2, '+', o1, o2, ':', o3, o4]⟩⟩] := by
  have hterm : termLen [y1, y2, y3, y4, '-', m1, m2, '-', a1, a2, 'T',
      r1, r2, ':', i1, i2, ':', s1, s2, '+', o1, o2, ':', o3, o4] =
      some 13 := by
    rw [termLen, termRun_plain _ (digit_termPlain h1),
      termRun_plain _ (digit_termPlain h2), termRun_plain _ (digit_termPlain h3),
      termRun_plain _ (digit_termPlain h4), termRun_plain _ (by decide),
      termRun_plain _ (digit_termPlain h5), termRun_plain _ (digit_termPlain h6),
      termRun_plain _ (by decide), termRun_plain _ (digit_termPlain h7),
      termRun_plain _ (digit_termPlain h8), termRun_plain _ (by decide),
      termRun_plain _ (digit_termPlain h9), termRun_plain _ (digit_termPlain h10),
      termRun_stop _ (by decide) (by decide)]
    norm_num
  have hdate : dateLitLen [y1, y2, y3, y4, '-', m1, m2, '-', a1, a2, 'T',
      r1, r2, ':', i1, i2, ':', s1, s2, '+', o1, o2, ':', o3, o4] =
      some 25 := by
    simp [dateLitLen, timeLen, h1, h2, h3, h4, h5, h6, h7, h8, h9, h10, h11,
      h12, h13, h14, h15, h16, h17, h18]
  have hsp : spLen [y1, y2, y3, y4, '-', m1, m2, '-', a1, a2, 'T',
      r1, r2, ':', i1, i2, ':', s1, s2, '+', o1, o2, ':', o3, o4] = none :=
    spLen_cons_none _ (digit_not_ws h1)
  have hnotL : notLen [y1, y2, y3, y4, '-', m1, m2, '-', a1, a2, 'T',
      r1, r2, ':', i1, i2, ':', s1, s2, '+', o1, o2, ':', o3, o4] = none :=
    litLen_cons_ne (Ne.symm (isDigit_ne h1 (by decide)))
  have hminusL : minusLen [y1, y2, y3, y4, '-', m1, m2, '-', a1, a2, 'T',
      r1, r2, ':', i1, i2, ':', s1, s2, '+', o1, o2, ':', o3, o4] = none :=
    litLen_cons_ne (Ne.symm (isDigit_ne h1 (by decide)))
  have hidL : idLen [y1, y2, y3, y4, '-', m1, m2, '-', a1, a2, 'T',
      r1, r2, ':', i1, i2, ':', s1, s2, '+', o1, o2, ':', o3, o4] = none := by
    simp [idLen, digit_not_idStart h1]
  have hgteL : gteLen [y1, y2, y3, y4, '-', m1, m2, '-', a1, a2, 'T',
      r1, r2, ':', i1, i2, ':', s1, s2, '+', o1, o2, ':', o3, o4] = none :=
    litLen_cons_ne (Ne.symm (isDigit_ne h1 (by decide)))
  have hgtL : gtLen [y1, y2, y3, y4, '-', m1, m2, '-', a1, a2, 'T',
      r1, r2, ':', i1, i2, ':', s1, s2, '+', o1, o2, ':', o3, o4] = none :=
    litLen_cons_ne (Ne.symm (isDigit_ne h1 (by decide)))
  have hlteL : lteLen [y1, y2, y3, y4, '-', m1, m2, '-', a1, a2, 'T',
      r1, r2, ':', i1, i2, ':', s1, s2, '+', o1, o2, ':', o3, o4] = none :=
    litLen_cons_ne (Ne.symm (isDigit_ne h1 (by decide)))
  have hltL : ltLen [y1, y2, y3, y4, '-', m1, m2, '-', a1, a2, 'T',
      r1, r2, ':', i1, i2, ':', s1, s2, '+', o1, o2, ':', o3, o4] = none :=
    litLen_cons_ne (Ne.symm (isDigit_ne h1 (by decide)))
  have heqL : eqLen [y1, y2, y3, y4, '-', m1, m2, '-', a1, a2, 'T',
      r1, r2, ':', i1, i2, ':', s1, s2, '+', o1, o2, ':', o3, o4] = none :=
    litLen_cons_ne (Ne.symm (isDigit_ne h1 (by decide)))
  have hddL : doubleDotLen [y1, y2, y3, y4, '-', m1, m2, '-', a1, a2, 'T',
      r1, r2, ':', i1, i2, ':', s1, s2, '+', o1, o2, ':', o3, o4] = none :=
    litLen_cons_ne (Ne.symm (isDigit_ne h1 (by decide)))
  have hstarL : starLen [y1, y2, y3, y4, '-', m1, m2, '-', a1, a2, 'T',
      r1, r2, ':', i1, i2, ':', s1, s2, '+', o1, o2, ':', o3, o4] = none :=
    litLen_cons_ne (Ne.symm (isDigit_ne h1 (by decide)))
  have hnt : nextTok [y1, y2, y3, y4, '-', m1, m2, '-', a1, a2, 'T',
      r1, r2, ':', i1, i2, ':', s1, s2, '+', o1, o2, ':', o3, o4] =
      (some ⟨.DateLiteral, ⟨[y1, y2, y3, y4, '-', m1, m2, '-', a1, a2, 'T',
        r1, r2, ':', i1, i2, ':', s1, s2, '+', o1, o2, ':', o3, o4]⟩⟩, 25) := by
    simp only [nextTok, hsp, hnotL, hminusL, hidL, hgteL, hgtL, hlteL, hltL,
      heqL, hddL, hstarL, hdate, longerAlt, hterm]
    rw [if_neg (by norm_num)]
    simp [mkTok, List.take]
  rw [tokList_cons, hnt]
  simp [List.drop]
  rfl

/-- Claim C4 (amended): every string of the form `YYYY-MM-DD`, optionally
followed by `THH:MM:SS` and either `Z` or a `+HH:MM` offset, is lexed as a
single DateLiteral token; a `-HH:MM` offset is not part of the pattern, so
such a string shatters into Term/EQ/NumberLiteral tokens instead. -/
theorem C4_date_literal :
    (∀ s : String, dateShape s = true → tokenize s = [⟨.DateLiteral, s⟩]) ∧
    tokenize ("2020-01-01T00:00:00-08:00") =
      [⟨.Term, "2020-01-01T00"⟩, ⟨.EQ, ":"⟩, ⟨.NumberLiteral, "00"⟩,
       ⟨.EQ, ":"⟩, ⟨.Term, "00-08"⟩, ⟨.EQ, ":"⟩, ⟨.NumberLiteral, "00"⟩] := by
  refine ⟨?_, by decide⟩
  intro s h
  obtain ⟨data⟩ := s
  unfold dateShape at h
  split at h
  case h_1 y1 y2 y3 y4 d1 m1 m2 d2 a1 a2 heq =>
    simp only [List.all_cons, List.all_nil, Bool.and_eq_true,
      decide_eq_true_eq, and_true] at h
    obtain ⟨⟨⟨h1, h2, h3, h4, h5, h6, h7, h8⟩, hd1⟩, hd2⟩ := h
    subst hd1
    subst hd2
    replace heq : data = _ := heq
    subst heq
    exact tokList_date10 h1 h2 h3 h4 h5 h6 h7 h8
  case h_2 y1 y2 y3 y4 d1 m1 m2 d2 a1 a2 t1 r1 r2 c1 i1 i2 c2 s1 s2 z1 heq =>
    simp only [List.all_cons, List.all_nil, Bool.and_eq_true,
      decide_eq_true_eq, and_true] at h
    obtain ⟨⟨⟨⟨⟨⟨⟨h1, h2, h3, h4, h5, h6, h7, h8, h9, h10, h11, h12, h13, h14⟩,
      hd1⟩, hd2⟩, ht1⟩, hc1⟩, hc2⟩, hz1⟩ := h
    subst hd1
    subst hd2
    subst ht1
    subst hc1
    subst hc2
    subst hz1
    replace heq : data = _ := heq
    subst heq
    exact tokList_date20 h1 h2 h3 h4 h5 h6 h7 h8 h9 h10 h11 h12 h13 h14
  case h_3 y1 y2 y3 y4 d1 m1 m2 d2 a1 a2 t1 r1 r2 c1 i1 i2 c2 s1 s2 p1 o1 o2
      c3 o3 o4 heq =>
    simp only [List.all_cons, List.all_nil, Bool.and_eq_true,
      decide_eq_true_eq, and_true] at h
    obtain ⟨⟨⟨⟨⟨⟨⟨⟨h1, h2, h3, h4, h5, h6, h7, h8, h9, h10, h11, h12, h13, h14,
      h15, h16, h17, h18⟩, hd1⟩, hd2⟩, ht1⟩, hc1⟩, hc2⟩, hp1⟩, hc3⟩ := h
    subst hd1
    subst hd2
    subst ht1
    subst hc1
    subst hc2
    subst hp1
    subst hc3
    replace heq : data = _ := heq
    subst heq
    exact tokList_date25 h1 h2 h3 h4 h5 h6 h7 h8 h9 h10 h11 h12 h13 h14 h15
      h16 h17 h18
  case h_4 => simp at h

theorem C4_date_literal_witness :
    dateShape ("2024-03-05T12:34:56+08:00") = true ∧
    tokenize ("2024-03-05T12:34:56+08:00") =
      [⟨.DateLiteral, "2024-03-05T12:34:56+08:00"⟩] :=
  ⟨by decide, C4_date_literal.1 ("2024-03-05T12:34:56+08:00") (by decide)⟩
